import Mathlib

/-!
# Verification of the questionnaire-analysis program

Shallow embedding of `hw_5.py` (class `QuestionnaireAnalysis`).  The table
held in `self.data` is modelled as a list of rows; each cell is a `Val`
(a JSON-originated value: a number, a string, or a null/NaN).  Pandas
operations are translated as follows:

* `pd.to_numeric(col, errors='coerce')` — per-value parse-or-missing
  (`toNumeric`), numeric strings parse, everything else becomes null;
* `np.histogram(ages, bins=np.arange(0,101,10))` — counts per half-open
  bin `[10i, 10(i+1))`, last bin closed `[90, 100]`, out-of-range values
  ignored;
* `re.match(r"[^@]+@[^@]+\.[^@]+", s)` — anchored-at-start match
  (`reMatch`), a trailing remainder is allowed;
* `Series.mean(skipna=True)` on an object column — nulls skipped, a
  remaining string raises (`objMean` returns an error), an empty
  remainder gives NaN (`none`);
* `scores.astype("UInt8")` — pandas nullable-UInt8 safe cast: raises on
  a value outside `0..255`, preserves NA;
* `groupby(['gender','age_group']).mean(numeric_only=True)` — rows with
  a null key dropped, non-numeric columns dropped (so selecting
  `q1..q5` afterwards raises unless every question column has numeric
  dtype: all values numeric-or-null with at least one number); group
  keys are sorted.  Gender keys are modelled as strings (the data
  model's type for `gender`); a non-string, non-null gender is mapped
  to the error case.

Each method returns its Python return value (inside `Except` when the
method can raise) paired with the table stored in `self.data` after the
call, so mutation of the object's state is explicit.
-/

attribute [local semireducible] Rat.add Rat.mul Rat.inv

inductive Val : Type where
  | num (q : ℚ)
  | str (s : String)
  | null
deriving DecidableEq

def Val.isNull : Val → Bool
  | .null => true
  | _ => false

def Val.isStr : Val → Bool
  | .str _ => true
  | _ => false

def Val.numOrNull : Val → Bool
  | .num _ => true
  | .null => true
  | _ => false

/-- The numeric value of a cell, if any (used for means over already
numeric-or-null columns). -/
def Val.asNum : Val → Option ℚ
  | .num q => some q
  | _ => none

/-- One questionnaire row.  `score` and `age_group` model columns that the
operations may add: `none` means the column is absent; for `score`,
`some none` is the stored `pd.NA`. -/
structure Row : Type where
  age : Val
  gender : Val
  email : Val
  q1 : Val
  q2 : Val
  q3 : Val
  q4 : Val
  q5 : Val
  score : Option (Option ℤ) := none
  age_group : Option String := none
deriving DecidableEq

abbrev Table : Type := List Row

/-! ## Numeric coercion (`pd.to_numeric(..., errors='coerce')`) -/

def digitsToNat (cs : List Char) : ℕ :=
  cs.foldl (fun a c => a * 10 + (c.toNat - 48)) 0

/-- Parse a decimal numeral: optional sign, digits, optional fractional
part.  Anything else is unparseable (`none`). -/
def parseNum (s : String) : Option ℚ :=
  let cs := s.toList
  let sign : Bool × List Char :=
    match cs with
    | '-' :: rest => (true, rest)
    | '+' :: rest => (false, rest)
    | _ => (false, cs)
  let intPart := sign.2.takeWhile Char.isDigit
  let rest := sign.2.drop intPart.length
  let body : Option ℚ :=
    match rest with
    | [] => if intPart.isEmpty then none else some ((digitsToNat intPart : ℕ) : ℚ)
    | '.' :: frac =>
      if frac.all Char.isDigit && !(intPart.isEmpty && frac.isEmpty) then
        some (((digitsToNat intPart : ℕ) : ℚ)
          + ((digitsToNat frac : ℕ) : ℚ) / ((10 : ℚ) ^ frac.length))
      else none
    | _ => none
  body.map (fun q => if sign.1 then -q else q)

/-- `pd.to_numeric(v, errors='coerce')` on a single cell. -/
def toNumeric (v : Val) : Option ℚ :=
  match v with
  | .num q => some q
  | .str s => parseNum s
  | .null => none

def valOfNum (o : Option ℚ) : Val :=
  match o with
  | some q => .num q
  | none => .null

/-- Coerce the `age` cell of a row (`self.data['age'] = pd.to_numeric(...)`). -/
def coerceAge (r : Row) : Row :=
  { r with age := valOfNum (toNumeric r.age) }

/-- Coerce the five question cells of a row. -/
def coerceQs (r : Row) : Row :=
  { r with
    q1 := valOfNum (toNumeric r.q1)
    q2 := valOfNum (toNumeric r.q2)
    q3 := valOfNum (toNumeric r.q3)
    q4 := valOfNum (toNumeric r.q4)
    q5 := valOfNum (toNumeric r.q5) }

def qList (r : Row) : List Val :=
  [r.q1, r.q2, r.q3, r.q4, r.q5]

/-! ## `show_age_distrib` -/

/-- Membership of `a` in histogram bin `i` of `np.histogram` with edges
`0,10,...,100`: half-open `[10i, 10(i+1))`, except the last bin which is
closed `[90,100]`. -/
def inBin (i : ℕ) (a : ℚ) : Bool :=
  decide ((10 * i : ℚ) ≤ a) &&
    (if i = 9 then decide (a ≤ 100) else decide (a < 10 * (i + 1 : ℕ)))

/-- `show_age_distrib`: coerces the stored `age` column in place, drops
missing ages, and histograms the rest over ten fixed bins.  Returns
((counts, edges), stored table after the call). -/
def show_age_distrib (t : Table) : (List ℕ × List ℚ) × Table :=
  let t1 := t.map coerceAge
  let ages := t1.filterMap (fun r => toNumeric r.age)
  let edges : List ℚ := (List.range 11).map (fun i => ((10 * i : ℕ) : ℚ))
  let hist : List ℕ := (List.range 10).map (fun i => (ages.filter (inBin i)).length)
  ((hist, edges), t1)

/-! ## `remove_rows_without_mail` -/

/-- Anchored match of the pattern `[^@]+@[^@]+\.[^@]+` against a character
list (`re.match`: the match may be a proper prefix of the input).  The
leading `[^@]+` can only consume the maximal run of non-'@' characters,
so the match continues at the first '@' (the head of `dropWhile`, checked
against the pattern's literal '@'); after it, `[^@]+\.[^@]+` must match a
prefix of the following non-'@' run `t`, i.e. `t` must contain a '.' at a
position that is neither first nor last. -/
def reMatch (cs : List Char) : Bool :=
  let l := cs.takeWhile (fun c => decide (c ≠ '@'))
  match cs.dropWhile (fun c => decide (c ≠ '@')) with
  | [] => false
  | a :: m =>
    a == '@' &&
      (let t := m.takeWhile (fun c => decide (c ≠ '@'))
       !l.isEmpty &&
         (List.range t.length).any (fun i =>
           decide (1 ≤ i) && decide (i + 1 < t.length) && (t.get? i == some '.')))

/-- `is_valid_email`: only strings can be valid, and validity is the
anchored regex match. -/
def is_valid_email (v : Val) : Bool :=
  match v with
  | .str s => reMatch s.toList
  | _ => false

/-- `remove_rows_without_mail`: returns the filtered copy (indices
renumbered by `reset_index(drop=True)`, which the list model makes
implicit); the stored table is returned unchanged. -/
def remove_rows_without_mail (t : Table) : Table × Table :=
  (t.filter (fun r => is_valid_email r.email), t)

/-! ## `fill_na_with_mean` -/

/-- `pd.isna` over every column a row can have (`row.isnull().any()`):
the eight `Val` cells plus a stored `pd.NA` score. -/
def rowHasNull (r : Row) : Bool :=
  r.age.isNull || r.gender.isNull || r.email.isNull ||
  r.q1.isNull || r.q2.isNull || r.q3.isNull || r.q4.isNull || r.q5.isNull ||
  (match r.score with | some none => true | _ => false)

/-- `Series.mean(skipna=True)` on the object-dtype slice
`row[['q1',...,'q5']]`: drop nulls; a surviving string makes the
underlying sum/divide raise (error); no survivors give NaN (`none`);
otherwise the arithmetic mean. -/
def objMean (vs : List Val) : Except Unit (Option ℚ) :=
  let present := vs.filter (fun v => !v.isNull)
  if present.any Val.isStr then
    .error ()
  else
    let nums := present.filterMap Val.asNum
    if nums.isEmpty then .ok none
    else .ok (some (nums.sum / (nums.length : ℚ)))

/-- The inner loop of `fill_na_with_mean` for one row: if some question
cell is null, each null question cell is overwritten with the mean of
the (original) row's question cells. -/
def fillQRow (r : Row) : Except Unit Row :=
  if (qList r).any Val.isNull then
    (objMean (qList r)).map (fun m =>
      let f : Val → Val := fun v => if v.isNull then valOfNum m else v
      { r with q1 := f r.q1, q2 := f r.q2, q3 := f r.q3, q4 := f r.q4, q5 := f r.q5 })
  else .ok r

/-- The row loop of `fill_na_with_mean`, carrying the current row index:
any row with a null anywhere is recorded and its question cells filled. -/
def fillAux (i : ℕ) (rs : List Row) : Except Unit (List Row × List ℕ) :=
  match rs with
  | [] => .ok ([], [])
  | r :: rest =>
    if rowHasNull r then
      match fillQRow r with
      | .error e => .error e
      | .ok r' =>
        match fillAux (i + 1) rest with
        | .error e => .error e
        | .ok p => .ok (r' :: p.1, i :: p.2)
    else
      match fillAux (i + 1) rest with
      | .error e => .error e
      | .ok p => .ok (r :: p.1, p.2)

/-- `fill_na_with_mean`: works on `self.data.copy()`; returns the
(filled copy, affected indices) — or the raised error — together with
the stored table, which this method never reassigns. -/
def fill_na_with_mean (t : Table) : Except Unit (Table × List ℕ) × Table :=
  (fillAux 0 t, t)

/-! ## `score_subjects` -/

/-- `calculate_score` on a coerced question row: count of nulls above the
threshold gives `pd.NA`; otherwise `int(np.floor(mean))`, which raises
(error) when every value is NaN (only reachable for thresholds ≥ 5). -/
def calculate_score (thr : ℕ) (qs : List (Option ℚ)) : Except Unit (Option ℤ) :=
  let nanCount := (qs.filter Option.isNone).length
  if nanCount > thr then .ok none
  else
    let present := qs.filterMap id
    if present.isEmpty then .error ()
    else .ok (some ⌊present.sum / (present.length : ℚ)⌋)

/-- A stored score outside `0..255` makes `astype("UInt8")` raise. -/
def scoreOutOfRange (s : Option ℤ) : Bool :=
  match s with
  | some z => decide (z < 0) || decide (255 < z)
  | none => false

/-- `score_subjects`: coerces `q1..q5` in place, computes every row's
score, then casts the score column to nullable UInt8 and stores it.
Returns (returned table or raised error, stored table after the call);
on a raise the stored table keeps the in-place coercion but gains no
score column. -/
def score_subjects (thr : ℕ) (t : Table) : Except Unit Table × Table :=
  let t1 := t.map coerceQs
  match t1.mapM (fun r =>
      (calculate_score thr ((qList r).map toNumeric)).map
        (fun s => { r with score := some s })) with
  | .error e => (.error e, t1)
  | .ok t2 =>
    if t2.any (fun r => match r.score with | some s => scoreOutOfRange s | none => false) then
      (.error (), t1)
    else
      (.ok t2, t2)

/-! ## `correlate_gender_age` -/

/-- The `age_group` label: `above_40` iff the (coerced) age compares
`≥ 40` (a missing age compares false, hence `below_40`). -/
def ageGroupLabel (r : Row) : String :=
  match toNumeric r.age with
  | some a => if 40 ≤ a then "above_40" else "below_40"
  | none => "below_40"

/-- The in-place part of `correlate_gender_age`: coerce `age`, then add
the `age_group` column. -/
def correlate_prep (t : Table) : Table :=
  t.map (fun r =>
    let r1 := coerceAge r
    { r1 with age_group := some (ageGroupLabel r1) })

/-- Pandas numeric dtype for a question column: every value numeric or
null, at least one numeric (an all-null or string-containing column is
object dtype and is dropped by `mean(numeric_only=True)`, making the
later `q1..q5` selection raise). -/
def colNumeric (t : Table) (sel : Row → Val) : Bool :=
  t.all (fun r => (sel r).numOrNull) && t.any (fun r => (sel r).asNum ≠ none)

def qSelectors : List (Row → Val) :=
  [Row.q1, Row.q2, Row.q3, Row.q4, Row.q5]

/-- Lexicographic order on (gender, age_group) group keys. -/
def keyLe (a b : String × String) : Bool :=
  decide (a.1 < b.1) || (a.1 == b.1 && decide (a.2 ≤ b.2))

def insertKey (k : String × String) : List (String × String) → List (String × String)
  | [] => [k]
  | x :: xs => if keyLe k x then k :: x :: xs else x :: insertKey k xs

def sortKeys (l : List (String × String)) : List (String × String) :=
  l.foldr insertKey []

/-- The group key of a prepared row, when `gender` is a (non-null)
string key. -/
def rowKey (r : Row) : Option (String × String) :=
  match r.gender, r.age_group with
  | .str g, some ag => some (g, ag)
  | _, _ => none

/-- Group mean of one question column over the rows with the given key
(`groupby(...).mean()` skips NaN; an empty group-column is NaN). -/
def groupQMean (rows : List Row) (k : String × String) (sel : Row → Val) : Option ℚ :=
  let vals := rows.filterMap (fun r => if rowKey r = some k then (sel r).asNum else none)
  if vals.isEmpty then none else some (vals.sum / (vals.length : ℚ))

/-- `correlate_gender_age`: coerces `age` and adds `age_group` in place
(these writes survive even when the selection raises), then groups by
(gender, age_group) — null genders dropped, keys sorted — and takes the
mean of each question column per group.  Raises unless every question
column is numeric dtype and the gender keys are (possibly null)
strings. -/
def correlate_gender_age (t : Table) :
    Except Unit (List ((String × String) × List (Option ℚ))) × Table :=
  let t1 := correlate_prep t
  let res : Except Unit (List ((String × String) × List (Option ℚ))) :=
    if qSelectors.all (fun sel => colNumeric t1 sel) &&
       t1.all (fun r => r.gender.isStr || r.gender.isNull) then
      let keys := sortKeys (t1.filterMap rowKey).dedup
      .ok (keys.map (fun k => (k, qSelectors.map (groupQMean t1 k))))
    else
      .error ()
  (res, t1)

/-! ## Concrete tables used by counterexamples and witnesses -/

/-- Build a row with no added columns. -/
def mkRow (a g e x1 x2 x3 x4 x5 : Val) : Row :=
  { age := a, gender := g, email := e, q1 := x1, q2 := x2, q3 := x3, q4 := x4, q5 := x5 }

/-- The spec's three scoring examples: [10,20,30,40,50], [10,20,30,40,missing],
[10,missing,missing,40,50]. -/
def scoreExampleTable : Table :=
  [mkRow (.num 30) (.str "M") (.str "a@b.c") (.num 10) (.num 20) (.num 30) (.num 40) (.num 50),
   mkRow (.num 30) (.str "M") (.str "a@b.c") (.num 10) (.num 20) (.num 30) (.num 40) .null,
   mkRow (.num 30) (.str "M") (.str "a@b.c") (.num 10) .null .null (.num 40) (.num 50)]

/-- A single row whose five answers are 1000: each score falls outside the
nullable-UInt8 range. -/
def hugeScoreTable : Table :=
  [mkRow .null .null .null (.num 1000) (.num 1000) (.num 1000) (.num 1000) (.num 1000)]

/-- A single row with a parseable age outside the histogram range. -/
def age150Table : Table :=
  [mkRow (.num 150) .null .null .null .null .null .null .null]

/-- A row whose only missing value is `age`: all five questions answered. -/
def nullAgeTable : Table :=
  [mkRow .null (.str "M") (.str "a@b.c") (.num 1) (.num 2) (.num 3) (.num 4) (.num 5)]

/-- A row with one missing question and one non-numeric (string) question. -/
def mixedQTable : Table :=
  [mkRow (.num 1) (.str "M") (.str "a@b.c") .null (.str "abc") (.num 1) (.num 1) (.num 1)]

/-- The spec's correlation example: two female subjects aged 45 and 30. -/
def correlationExampleTable : Table :=
  [mkRow (.num 45) (.str "F") .null (.num 10) (.num 10) (.num 10) (.num 10) (.num 10),
   mkRow (.num 30) (.str "F") .null (.num 20) (.num 20) (.num 20) (.num 20) (.num 20)]

/-! ## Predicates used in claim statements -/

/-- Modelled from the spec: the email shape the specification describes —
"at least one non-'@' character, then '@', then at least one non-'@'
character, then a literal '.', then at least one character" — read as a
decomposition of the whole string.  Used to compare the spec's wording
with the code's `is_valid_email`. -/
def specEmailShape (s : String) : Prop :=
  ∃ l m t : List Char,
    s.toList = l ++ '@' :: (m ++ '.' :: t) ∧
    l ≠ [] ∧ m ≠ [] ∧ t ≠ [] ∧
    (∀ c ∈ l, c ≠ '@') ∧ (∀ c ∈ m, c ≠ '@')

/-- Data-model typing of the question cells: numeric or missing (no
strings). -/
def qsNumOrNull (r : Row) : Bool :=
  (qList r).all Val.numOrNull

/-- Every question cell coerces into the 0–100 question scale or is
missing. -/
def qsInScale (r : Row) : Bool :=
  (qList r).all (fun v =>
    match toNumeric v with
    | some x => decide (0 ≤ x) && decide (x ≤ 100)
    | none => true)

/-- A fully well-formed row in the sense of the round-trip property: a
string gender and five answered questions on the 0–100 scale. -/
def wellFormedRow (r : Row) : Bool :=
  r.gender.isStr &&
    (qList r).all (fun v =>
      match v with
      | .num x => decide (0 ≤ x) && decide (x ≤ 100)
      | _ => false)

/-- The score the claim predicts for a row under the default threshold 1:
coerce the five answers, count the missing ones; more than one missing
gives the unscored sentinel, otherwise the floor of the mean of the
present values. -/
def scoreSpec (r : Row) : Option ℤ :=
  let qs := (qList r).map toNumeric
  if 1 < (qs.filter Option.isNone).length then none
  else some ⌊(qs.filterMap id).sum / (((qs.filterMap id).length : ℕ) : ℚ)⌋

/-- The row-wise question mean the claim describes: the mean of the
row's non-missing question values, undefined (`none`, i.e. NaN) when all
five are missing. -/
def rowQMean (r : Row) : Option ℚ :=
  let nums := (qList r).filterMap Val.asNum
  if nums.isEmpty then none
  else some (nums.sum / ((nums.length : ℕ) : ℚ))

/-- The imputed row the claim describes: every missing question value is
replaced by the row-wise mean of the non-missing ones. -/
def fillSpecRow (r : Row) : Row :=
  let f : Val → Val := fun v => if v.isNull then valOfNum (rowQMean r) else v
  { r with q1 := f r.q1, q2 := f r.q2, q3 := f r.q3, q4 := f r.q4, q5 := f r.q5 }

/-- Imputation examples: a row with exactly one missing question, a row
with none, and a row with all five missing. -/
def imputeExampleTable : Table :=
  [mkRow (.num 20) (.str "F") (.str "a@b.c") (.num 10) (.num 20) (.num 30) (.num 40) .null,
   mkRow (.num 21) (.str "F") (.str "a@b.c") (.num 5) (.num 5) (.num 5) (.num 5) (.num 5),
   mkRow (.num 22) (.str "F") (.str "a@b.c") .null .null .null .null .null]

/-! ## C4: the email filter never mutates the stored table -/

/-- C4: `remove_rows_without_mail` leaves the stored table untouched, returns
exactly the valid rows (as a new list, hence renumbered from 0), and a second
call on the object's state returns a result of the same size because nothing
was written back. -/
theorem C4_email_filter_pure (t : Table) :
    (remove_rows_without_mail t).2 = t ∧
    (remove_rows_without_mail t).1 = t.filter (fun r => is_valid_email r.email) ∧
    (remove_rows_without_mail ((remove_rows_without_mail t).2)).1
      = (remove_rows_without_mail t).1 ∧
    ((remove_rows_without_mail ((remove_rows_without_mail t).2)).1).length
      = ((remove_rows_without_mail t).1).length :=
  ⟨rfl, rfl, rfl, rfl⟩

/-! ## General helper lemmas -/

lemma toNumeric_valOfNum (o : Option ℚ) : toNumeric (valOfNum o) = o := by
  cases o <;> rfl

/-! ## C10: age-distribution and correlation write back to the stored table -/

/-- C10: both `show_age_distrib` and `correlate_gender_age` store the
numeric coercion of the `age` column back into the object's table (so every
stored age is numeric-or-null afterwards, non-numeric ages having become
missing), and `correlate_gender_age` additionally sets an `age_group`
column on every stored row. -/
theorem C10_state_side_effects (t : Table) :
    (show_age_distrib t).2 = t.map coerceAge ∧
    (∀ r ∈ (show_age_distrib t).2, r.age = valOfNum (toNumeric r.age)) ∧
    (correlate_gender_age t).2 = correlate_prep t ∧
    (∀ r ∈ (correlate_gender_age t).2,
      r.age = valOfNum (toNumeric r.age) ∧ r.age_group = some (ageGroupLabel r)) := by
  refine ⟨rfl, ?_, rfl, ?_⟩
  · intro r hr
    rw [show (show_age_distrib t).2 = t.map coerceAge from rfl, List.mem_map] at hr
    obtain ⟨r0, _, hr0⟩ := hr
    subst hr0
    show valOfNum (toNumeric r0.age) = valOfNum (toNumeric (coerceAge r0).age)
    rw [show (coerceAge r0).age = valOfNum (toNumeric r0.age) from rfl,
      toNumeric_valOfNum]
  · intro r hr
    rw [show (correlate_gender_age t).2 = correlate_prep t from rfl,
      correlate_prep, List.mem_map] at hr
    obtain ⟨r0, _, hr0⟩ := hr
    subst hr0
    constructor
    · show valOfNum (toNumeric r0.age) = valOfNum (toNumeric (coerceAge r0).age)
      rw [show (coerceAge r0).age = valOfNum (toNumeric r0.age) from rfl,
        toNumeric_valOfNum]
    · show some (ageGroupLabel (coerceAge r0)) = some (ageGroupLabel _)
      rfl

/-! ## C1: scoring — counterexample and amended statement -/

/-- C1 counterexample: on a row whose five answers are all 1000 the claim
predicts a score of 1000 (no value is missing, the floored mean is 1000),
but `score_subjects` with its default threshold raises while casting the
score column to nullable UInt8, so no score is assigned at all. -/
theorem C1_counterexample :
    (score_subjects 1 hugeScoreTable).1 = .error () ∧
    (∀ t2, (score_subjects 1 hugeScoreTable).1 = .ok t2 → False) := by
  refine ⟨rfl, ?_⟩
  intro t2 h
  rw [show (score_subjects 1 hugeScoreTable).1 = .error () from rfl] at h
  exact Except.noConfusion h

lemma qList_coerceQs_toNumeric (r : Row) :
    (qList (coerceQs r)).map toNumeric = (qList r).map toNumeric := by
  simp [qList, coerceQs, toNumeric_valOfNum]

lemma scoreSpec_coerceQs (r : Row) : scoreSpec (coerceQs r) = scoreSpec r := by
  unfold scoreSpec
  rw [qList_coerceQs_toNumeric]

lemma qsInScale_coerceQs (r : Row) : qsInScale (coerceQs r) = qsInScale r := by
  simp only [qsInScale, qList, coerceQs, List.all_cons, List.all_nil,
    toNumeric_valOfNum]

lemma mapM_ok_of_forall {α β : Type} (f : α → Except Unit β) (g : α → β)
    (l : List α) (h : ∀ a ∈ l, f a = .ok (g a)) : l.mapM f = .ok (l.map g) := by
  induction l with
  | nil => rfl
  | cons a l ih =>
    rw [List.mapM_cons, h a (by simp), ih (fun x hx => h x (by simp [hx]))]
    rfl

/-- Mean of a nonempty list of rationals from `[0,100]` stays in `[0,100]`. -/
lemma mean_bounds (l : List ℚ) (hne : l ≠ [])
    (hb : ∀ x ∈ l, 0 ≤ x ∧ x ≤ 100) :
    0 ≤ l.sum / (l.length : ℚ) ∧ l.sum / (l.length : ℚ) ≤ 100 := by
  have hlen : 0 < (l.length : ℚ) := by
    have := List.length_pos.mpr hne
    exact_mod_cast this
  have hsum0 : 0 ≤ l.sum := List.sum_nonneg (fun x hx => (hb x hx).1)
  have hsum100 : l.sum ≤ 100 * (l.length : ℚ) := by
    induction l with
    | nil => simp
    | cons a l ih =>
      have ha := hb a (by simp)
      by_cases hl : l = []
      · subst hl; simpa using ha.2
      · have := ih hl (fun x hx => hb x (by simp [hx]))
          (by exact_mod_cast List.length_pos.mpr hl)
          (List.sum_nonneg (fun x hx => (hb x (by simp [hx])).1))
        simp only [List.sum_cons, List.length_cons]
        push_cast
        linarith [ha.2]
  constructor
  · positivity
  · rw [div_le_iff₀ hlen]
    linarith

lemma length_filterMap_id_add {α : Type} (l : List (Option α)) :
    (l.filterMap id).length + (l.filter Option.isNone).length = l.length := by
  induction l with
  | nil => rfl
  | cons a l ih =>
    cases a <;> simp [List.filterMap_cons, List.filter_cons] <;> omega

lemma calculate_score_eq (r : Row) :
    calculate_score 1 ((qList r).map toNumeric) = .ok (scoreSpec r) := by
  unfold calculate_score scoreSpec
  by_cases h : 1 < (((qList r).map toNumeric).filter Option.isNone).length
  · rw [if_pos h, if_pos h]
  · rw [if_neg h, if_neg h]
    have hlen : ((qList r).map toNumeric).length = 5 := by simp [qList]
    have hsum := length_filterMap_id_add ((qList r).map toNumeric)
    have hpos : 0 < (((qList r).map toNumeric).filterMap id).length := by omega
    rw [if_neg (by
      intro he
      rw [List.isEmpty_iff] at he
      rw [he] at hpos
      simp at hpos)]

lemma scoreSpec_in_range (r : Row) (h : qsInScale r = true) :
    scoreOutOfRange (scoreSpec r) = false := by
  unfold scoreSpec
  by_cases h1 : 1 < (((qList r).map toNumeric).filter Option.isNone).length
  · rw [if_pos h1]; rfl
  · rw [if_neg h1]
    have hb : ∀ x ∈ ((qList r).map toNumeric).filterMap id, 0 ≤ x ∧ x ≤ 100 := by
      intro x hx
      rw [List.mem_filterMap] at hx
      obtain ⟨o, ho, hox⟩ := hx
      rw [List.mem_map] at ho
      obtain ⟨v, hv, hvo⟩ := ho
      have hall := List.all_eq_true.mp h v hv
      rw [hvo] at hall
      simp only [id] at hox
      rw [hox] at hall
      simp only [Bool.and_eq_true, decide_eq_true_eq] at hall
      exact hall
    have hlen : ((qList r).map toNumeric).length = 5 := by simp [qList]
    have hsum := length_filterMap_id_add ((qList r).map toNumeric)
    have hpos : 0 < (((qList r).map toNumeric).filterMap id).length := by omega
    have hne : ((qList r).map toNumeric).filterMap id ≠ [] := by
      intro he
      rw [he] at hpos
      simp at hpos
    have hm := mean_bounds _ hne hb
    have h0 : 0 ≤ ⌊(((qList r).map toNumeric).filterMap id).sum
        / (((((qList r).map toNumeric).filterMap id).length : ℕ) : ℚ)⌋ :=
      Int.le_floor.mpr (by exact_mod_cast hm.1)
    have h255 : ⌊(((qList r).map toNumeric).filterMap id).sum
        / (((((qList r).map toNumeric).filterMap id).length : ℕ) : ℚ)⌋ ≤ 255 := by
      have hle := (Int.floor_le (α := ℚ) _).trans hm.2
      have : ⌊(((qList r).map toNumeric).filterMap id).sum
          / (((((qList r).map toNumeric).filterMap id).length : ℕ) : ℚ)⌋ ≤ 100 := by
        exact_mod_cast hle
      omega
    show (decide (⌊(((qList r).map toNumeric).filterMap id).sum
        / (((((qList r).map toNumeric).filterMap id).length : ℕ) : ℚ)⌋ < 0)
      || decide (255 < ⌊(((qList r).map toNumeric).filterMap id).sum
        / (((((qList r).map toNumeric).filterMap id).length : ℕ) : ℚ)⌋)) = false
    rw [decide_eq_false (not_lt.mpr h0), decide_eq_false (not_lt.mpr h255)]
    rfl

/-- C1 (amended): provided every question value coerces into the 0–100
question scale (so every floored mean fits the nullable-UInt8 score
column), `score_subjects` with its default threshold 1 succeeds, stores
the scored table, and assigns per row the unscored sentinel when more
than one question is missing and the floor of the mean of the present
values otherwise. -/
theorem C1_score_amended (t : Table) (h : ∀ r ∈ t, qsInScale r = true) :
    ∃ t2 : Table,
      (score_subjects 1 t).1 = .ok t2 ∧
      (score_subjects 1 t).2 = t2 ∧
      t2 = t.map (fun r => { coerceQs r with score := some (scoreSpec r) }) ∧
      t2.map Row.score = t.map (fun r => some (scoreSpec r)) := by
  have hmm : (t.map coerceQs).mapM (fun r =>
      (calculate_score 1 ((qList r).map toNumeric)).map
        (fun s => { r with score := some s }))
      = .ok (t.map (fun r => { coerceQs r with score := some (scoreSpec r) })) := by
    rw [mapM_ok_of_forall _ (fun r1 => { r1 with score := some (scoreSpec r1) }) _
      (fun a _ => by rw [calculate_score_eq a]; rfl)]
    rw [List.map_map]
    refine congrArg Except.ok (List.map_congr_left ?_)
    intro r _
    show { coerceQs r with score := some (scoreSpec (coerceQs r)) }
        = { coerceQs r with score := some (scoreSpec r) }
    rw [scoreSpec_coerceQs]
  have hany : (t.map (fun r => { coerceQs r with score := some (scoreSpec r) })).any
      (fun r => match r.score with | some s => scoreOutOfRange s | none => false)
      = false := by
    rw [List.any_eq_false]
    intro r hr
    rw [List.mem_map] at hr
    obtain ⟨r0, hr0, hr0e⟩ := hr
    subst hr0e
    show ¬ (scoreOutOfRange (scoreSpec r0) = true)
    rw [scoreSpec_in_range r0 (h r0 hr0)]
    exact Bool.false_ne_true
  refine ⟨t.map (fun r => { coerceQs r with score := some (scoreSpec r) }),
    ?_, ?_, rfl, ?_⟩
  · show (score_subjects 1 t).1 = _
    unfold score_subjects
    simp only [hmm]
    rw [if_neg (by rw [hany]; exact Bool.false_ne_true)]
  · show (score_subjects 1 t).2 = _
    unfold score_subjects
    simp only [hmm]
    rw [if_neg (by rw [hany]; exact Bool.false_ne_true)]
  · rw [List.map_map]
    rfl

/-- Witness for C1: the spec's three example rows satisfy the scale
hypothesis, the amended theorem applies to them, and the stored scores are
30, 25 and the unscored sentinel. -/
theorem C1_score_amended_witness :
    (∀ r ∈ scoreExampleTable, qsInScale r = true) ∧
    (∃ t2 : Table,
      (score_subjects 1 scoreExampleTable).1 = .ok t2 ∧
      (score_subjects 1 scoreExampleTable).2 = t2 ∧
      t2 = scoreExampleTable.map
        (fun r => { coerceQs r with score := some (scoreSpec r) }) ∧
      t2.map Row.score = scoreExampleTable.map (fun r => some (scoreSpec r))) ∧
    scoreExampleTable.map (fun r => some (scoreSpec r))
      = [some (some 30), some (some 25), some none] :=
  ⟨by decide, C1_score_amended scoreExampleTable (by decide), by decide⟩

/-! ## C5: histogram lemmas -/

lemma inBin_eq_floor (i : ℕ) (hi : i ≤ 8) (a : ℚ) :
    (inBin i a = true) ↔ (⌊a / 10⌋ = (i : ℤ)) := by
  have h10 : (0:ℚ) < 10 := by norm_num
  rw [Int.floor_eq_iff]
  unfold inBin
  rw [if_neg (by omega)]
  simp only [Bool.and_eq_true, decide_eq_true_eq]
  constructor
  · rintro ⟨h1, h2⟩
    constructor
    · rw [le_div_iff₀ h10]
      push_cast
      linarith
    · rw [div_lt_iff₀ h10]
      push_cast
      push_cast at h2
      linarith
  · rintro ⟨h1, h2⟩
    rw [le_div_iff₀ h10] at h1
    rw [div_lt_iff₀ h10] at h2
    constructor
    · push_cast at h1
      linarith
    · push_cast at h2
      push_cast
      linarith

lemma inBin9_iff (a : ℚ) : (inBin 9 a = true) ↔ (90 ≤ a ∧ a ≤ 100) := by
  unfold inBin
  rw [if_pos rfl]
  simp only [Bool.and_eq_true, decide_eq_true_eq]
  norm_num

lemma bin_count (a : ℚ) :
    ((List.range 10).map (fun i => if inBin i a then (1:ℕ) else 0)).sum
      = if 0 ≤ a ∧ a ≤ 100 then 1 else 0 := by
  rcases lt_or_le a 0 with ha | ha
  · rw [if_neg (by rintro ⟨h1, _⟩; linarith)]
    apply List.sum_eq_zero
    intro x hx
    rw [List.mem_map] at hx
    obtain ⟨i, _, hxe⟩ := hx
    rw [← hxe, if_neg]
    intro hbin
    unfold inBin at hbin
    simp only [Bool.and_eq_true, decide_eq_true_eq] at hbin
    have hip : (0:ℚ) ≤ 10 * i := by positivity
    linarith [hbin.1]
  rcases lt_or_le 100 a with ha2 | ha2
  · rw [if_neg (by rintro ⟨_, h2⟩; linarith)]
    apply List.sum_eq_zero
    intro x hx
    rw [List.mem_map] at hx
    obtain ⟨i, hi, hxe⟩ := hx
    rw [List.mem_range] at hi
    rw [← hxe, if_neg]
    intro hbin
    unfold inBin at hbin
    simp only [Bool.and_eq_true, decide_eq_true_eq] at hbin
    by_cases h9 : i = 9
    · rw [if_pos h9] at hbin
      simp only [decide_eq_true_eq] at hbin
      linarith [hbin.2]
    · rw [if_neg h9] at hbin
      simp only [decide_eq_true_eq] at hbin
      have hile : i + 1 ≤ 9 := by omega
      have hileq : ((i:ℚ) + 1) ≤ 9 := by exact_mod_cast hile
      have := hbin.2
      push_cast at this
      linarith
  · rw [if_pos ⟨ha, ha2⟩]
    obtain ⟨n, hn⟩ : ∃ n : ℤ, ⌊a / 10⌋ = n := ⟨_, rfl⟩
    have hn0 : 0 ≤ n := by
      rw [← hn]
      exact Int.le_floor.mpr (by positivity)
    have hn10 : n ≤ 10 := by
      rw [← hn]
      have h1 : a / 10 ≤ 10 := by
        rw [div_le_iff₀ (by norm_num : (0:ℚ) < 10)]
        linarith
      calc ⌊a / 10⌋ ≤ ⌊(10:ℚ)⌋ := Int.floor_le_floor h1
        _ = 10 := by norm_num
    have hfl := Int.floor_le (a / 10)
    have hfu := Int.lt_floor_add_one (a / 10)
    rw [hn] at hfl hfu
    have hal : (n:ℚ) * 10 ≤ a := by
      rw [le_div_iff₀ (by norm_num : (0:ℚ) < 10)] at hfl
      linarith
    have hau : a < ((n:ℚ) + 1) * 10 := by
      rw [div_lt_iff₀ (by norm_num : (0:ℚ) < 10)] at hfu
      linarith
    simp only [List.range_succ, List.map_append, List.map_cons, List.map_nil,
      List.sum_append, List.sum_cons, List.sum_nil,
      inBin_eq_floor 0 (by omega) a, inBin_eq_floor 1 (by omega) a,
      inBin_eq_floor 2 (by omega) a, inBin_eq_floor 3 (by omega) a,
      inBin_eq_floor 4 (by omega) a, inBin_eq_floor 5 (by omega) a,
      inBin_eq_floor 6 (by omega) a, inBin_eq_floor 7 (by omega) a,
      inBin_eq_floor 8 (by omega) a, inBin9_iff a, hn]
    interval_cases n <;> push_cast <;> norm_num <;>
      first
        | exact ⟨by linarith, ha2⟩
        | (intro hx; linarith)

lemma sum_map_add {α : Type} (f g : α → ℕ) (l : List α) :
    (l.map (fun x => f x + g x)).sum = (l.map f).sum + (l.map g).sum := by
  induction l with
  | nil => rfl
  | cons a l ih =>
    simp only [List.map_cons, List.sum_cons, ih]
    omega

lemma hist_sum (ages : List ℚ) :
    ((List.range 10).map (fun i => (ages.filter (inBin i)).length)).sum
      = (ages.filter (fun a => decide (0 ≤ a) && decide (a ≤ 100))).length := by
  induction ages with
  | nil => simp
  | cons a l ih =>
    have hstep : ∀ i ∈ List.range 10, ((a :: l).filter (inBin i)).length
        = (fun i => (if inBin i a then 1 else 0) + (l.filter (inBin i)).length) i := by
      intro i _
      show ((a :: l).filter (inBin i)).length
          = (if inBin i a then 1 else 0) + (l.filter (inBin i)).length
      rw [List.filter_cons]
      by_cases hb : inBin i a
      · rw [if_pos hb, if_pos hb]
        simp only [List.length_cons]
        omega
      · rw [if_neg hb, if_neg hb]
        omega
    rw [List.map_congr_left hstep, sum_map_add, bin_count a, ih, List.filter_cons]
    by_cases hc : 0 ≤ a ∧ a ≤ 100
    · rw [if_pos hc,
        if_pos (by simp only [Bool.and_eq_true, decide_eq_true_eq]; exact hc)]
      simp only [List.length_cons]
      omega
    · rw [if_neg hc,
        if_neg (by simp only [Bool.and_eq_true, decide_eq_true_eq]; exact hc)]
      omega

lemma ages_coerce (t : Table) :
    (t.map coerceAge).filterMap (fun r => toNumeric r.age)
      = t.filterMap (fun r => toNumeric r.age) := by
  rw [List.filterMap_map]
  congr 1
  funext r
  exact toNumeric_valOfNum _

/-- C5 counterexample: a single row with age 150 has a parseable numeric
age, yet the bucket counts sum to 0 — `np.histogram` silently drops
values outside the 0–100 bin range, so the counts do not sum to the
number of parseable ages. -/
theorem C5_counterexample :
    ((show_age_distrib age150Table).1.1).sum = 0 ∧
    (age150Table.filterMap (fun r => toNumeric r.age)).length = 1 ∧
    ((show_age_distrib age150Table).1.1).sum
      ≠ (age150Table.filterMap (fun r => toNumeric r.age)).length := by
  refine ⟨by decide, by decide, by decide⟩

/-- C5 (amended): the bucket counts sum to the number of rows whose age
is a parseable numeric value lying within the histogram range 0–100
(out-of-range parseable ages are dropped); there are ten buckets, the
edge sequence has length counts+1, and the last bin is the closed
interval [90,100], so it includes 100. -/
theorem C5_age_distrib_amended (t : Table) :
    ((show_age_distrib t).1.1).sum
      = ((t.filterMap (fun r => toNumeric r.age)).filter
          (fun a => decide (0 ≤ a) && decide (a ≤ 100))).length ∧
    ((show_age_distrib t).1.1).length = 10 ∧
    ((show_age_distrib t).1.2).length = ((show_age_distrib t).1.1).length + 1 ∧
    (∀ a : ℚ, inBin 9 a = true ↔ (90 ≤ a ∧ a ≤ 100)) := by
  refine ⟨?_, by
    rw [show (show_age_distrib t).1.1
        = (List.range 10).map (fun i =>
            (((t.map coerceAge).filterMap (fun r => toNumeric r.age)).filter
              (inBin i)).length) from rfl]
    rw [List.length_map, List.length_range], by
    rw [show (show_age_distrib t).1.2
        = (List.range 11).map (fun i => ((10 * i : ℕ) : ℚ)) from rfl,
      show (show_age_distrib t).1.1
        = (List.range 10).map (fun i =>
            (((t.map coerceAge).filterMap (fun r => toNumeric r.age)).filter
              (inBin i)).length) from rfl]
    rw [List.length_map, List.length_range, List.length_map, List.length_range],
    inBin9_iff⟩
  rw [show (show_age_distrib t).1.1
      = (List.range 10).map (fun i =>
          (((t.map coerceAge).filterMap (fun r => toNumeric r.age)).filter
            (inBin i)).length) from rfl]
  rw [hist_sum, ages_coerce]

/-! ## Imputation lemmas -/

lemma filterMap_asNum_filter (vs : List Val) :
    (vs.filter (fun v => !v.isNull)).filterMap Val.asNum = vs.filterMap Val.asNum := by
  induction vs with
  | nil => rfl
  | cons v vs ih =>
    cases v with
    | num q =>
      rw [List.filter_cons, if_pos (by rfl), List.filterMap_cons, List.filterMap_cons]
      show q :: (vs.filter (fun v => !v.isNull)).filterMap Val.asNum
          = q :: vs.filterMap Val.asNum
      rw [ih]
    | str a =>
      rw [List.filter_cons, if_pos (by rfl), List.filterMap_cons, List.filterMap_cons]
      exact ih
    | null =>
      rw [List.filter_cons, if_neg (by simp [Val.isNull]), List.filterMap_cons]
      exact ih

lemma objMean_eq (vs : List Val) (h : ∀ v ∈ vs, v.numOrNull = true) :
    objMean vs = .ok (
      if (vs.filterMap Val.asNum).isEmpty then none
      else some ((vs.filterMap Val.asNum).sum
        / (((vs.filterMap Val.asNum).length : ℕ) : ℚ))) := by
  unfold objMean
  rw [if_neg (by
    rw [Bool.not_eq_true, List.any_eq_false]
    intro v hv
    have hv2 := h v (List.mem_of_mem_filter hv)
    cases v with
    | num q => simp [Val.isStr]
    | str a => simp [Val.numOrNull] at hv2
    | null => simp [Val.isStr])]
  rw [filterMap_asNum_filter]
  by_cases he : (vs.filterMap Val.asNum).isEmpty
  · rw [if_pos he, if_pos he]
  · rw [if_neg he, if_neg he]

lemma rowQMean_val (r : Row) (h : ∀ v ∈ qList r, v.numOrNull = true) :
    objMean (qList r) = .ok (rowQMean r) := by
  rw [objMean_eq _ h]
  rfl

lemma fillQRow_eq (r : Row) (h : ∀ v ∈ qList r, v.numOrNull = true) :
    fillQRow r = .ok (fillSpecRow r) := by
  unfold fillQRow
  by_cases hn : (qList r).any Val.isNull
  · rw [if_pos hn, rowQMean_val r h]
    rfl
  · rw [if_neg hn]
    have hn2 : (qList r).any Val.isNull = false := Bool.eq_false_iff.mpr hn
    rw [List.any_eq_false] at hn2
    have h1 : r.q1.isNull = false := Bool.eq_false_iff.mpr (hn2 r.q1 (by simp [qList]))
    have h2 : r.q2.isNull = false := Bool.eq_false_iff.mpr (hn2 r.q2 (by simp [qList]))
    have h3 : r.q3.isNull = false := Bool.eq_false_iff.mpr (hn2 r.q3 (by simp [qList]))
    have h4 : r.q4.isNull = false := Bool.eq_false_iff.mpr (hn2 r.q4 (by simp [qList]))
    have h5 : r.q5.isNull = false := Bool.eq_false_iff.mpr (hn2 r.q5 (by simp [qList]))
    show Except.ok r = Except.ok
      { r with
        q1 := if r.q1.isNull then valOfNum (rowQMean r) else r.q1
        q2 := if r.q2.isNull then valOfNum (rowQMean r) else r.q2
        q3 := if r.q3.isNull then valOfNum (rowQMean r) else r.q3
        q4 := if r.q4.isNull then valOfNum (rowQMean r) else r.q4
        q5 := if r.q5.isNull then valOfNum (rowQMean r) else r.q5 }
    rw [h1, h2, h3, h4, h5]
    simp only [Bool.false_eq_true, if_false]

lemma fillSpecRow_id (r : Row) (h : (qList r).any Val.isNull = false) :
    fillSpecRow r = r := by
  rw [List.any_eq_false] at h
  have h1 : r.q1.isNull = false := Bool.eq_false_iff.mpr (h r.q1 (by simp [qList]))
  have h2 : r.q2.isNull = false := Bool.eq_false_iff.mpr (h r.q2 (by simp [qList]))
  have h3 : r.q3.isNull = false := Bool.eq_false_iff.mpr (h r.q3 (by simp [qList]))
  have h4 : r.q4.isNull = false := Bool.eq_false_iff.mpr (h r.q4 (by simp [qList]))
  have h5 : r.q5.isNull = false := Bool.eq_false_iff.mpr (h r.q5 (by simp [qList]))
  show ({ r with
      q1 := if r.q1.isNull then valOfNum (rowQMean r) else r.q1
      q2 := if r.q2.isNull then valOfNum (rowQMean r) else r.q2
      q3 := if r.q3.isNull then valOfNum (rowQMean r) else r.q3
      q4 := if r.q4.isNull then valOfNum (rowQMean r) else r.q4
      q5 := if r.q5.isNull then valOfNum (rowQMean r) else r.q5 } : Row) = r
  rw [h1, h2, h3, h4, h5]
  simp only [Bool.false_eq_true, if_false]

lemma qs_any_null_of_not_rowHasNull (r : Row) (h : rowHasNull r = false) :
    (qList r).any Val.isNull = false := by
  unfold rowHasNull at h
  simp only [Bool.or_eq_false_iff] at h
  rw [List.any_eq_false]
  intro v hv
  rcases (by simpa [qList] using hv :
      v = r.q1 ∨ v = r.q2 ∨ v = r.q3 ∨ v = r.q4 ∨ v = r.q5) with
    hc | hc | hc | hc | hc <;> rw [hc] <;>
    simp [h.1.1.1.1.1.2, h.1.1.1.1.2, h.1.1.1.2, h.1.1.2, h.1.2]

lemma fillAux_eq (rs : List Row) :
    ∀ i : ℕ, (∀ r ∈ rs, qsNumOrNull r = true) →
    fillAux i rs = .ok (rs.map fillSpecRow,
      ((rs.enumFrom i).filter (fun p => rowHasNull p.2)).map Prod.fst) := by
  induction rs with
  | nil => intro i _; rfl
  | cons r rest ih =>
    intro i h
    have hr : ∀ v ∈ qList r, v.numOrNull = true :=
      List.all_eq_true.mp (h r (by simp))
    have hrest : ∀ r0 ∈ rest, qsNumOrNull r0 = true :=
      fun r0 hr0 => h r0 (by simp [hr0])
    unfold fillAux
    rw [List.enumFrom_cons, List.filter_cons]
    by_cases hn : rowHasNull r
    · rw [if_pos hn, fillQRow_eq r hr, ih (i + 1) hrest, if_pos (by simpa using hn)]
      rfl
    · rw [if_neg hn, ih (i + 1) hrest,
        if_neg (by simp [Bool.eq_false_iff.mpr hn])]
      rw [List.map_cons,
        fillSpecRow_id r (qs_any_null_of_not_rowHasNull r (Bool.eq_false_iff.mpr hn))]

lemma filter_nonnull_any_isStr (vs : List Val) :
    (vs.filter (fun v => !v.isNull)).any Val.isStr = vs.any Val.isStr := by
  induction vs with
  | nil => rfl
  | cons v vs ih =>
    cases v with
    | num q =>
      rw [List.filter_cons, if_pos (by rfl), List.any_cons, List.any_cons, ih]
    | str a =>
      rw [List.filter_cons, if_pos (by rfl), List.any_cons, List.any_cons, ih]
    | null =>
      rw [List.filter_cons, if_neg (by simp [Val.isNull]), List.any_cons, ih]
      rw [show Val.null.isStr = false from rfl, Bool.false_or]

lemma fillQRow_error_iff (r : Row) :
    fillQRow r = .error () ↔
      ((qList r).any Val.isNull = true ∧ (qList r).any Val.isStr = true) := by
  unfold fillQRow
  by_cases hn : (qList r).any Val.isNull
  · rw [if_pos hn]
    unfold objMean
    by_cases hs : (qList r).any Val.isStr
    · rw [if_pos (by rw [filter_nonnull_any_isStr]; exact hs)]
      exact ⟨fun _ => ⟨hn, hs⟩, fun _ => rfl⟩
    · rw [if_neg (by
        rw [filter_nonnull_any_isStr]
        exact fun hh => hs hh)]
      constructor
      · intro he
        by_cases hemp : ((qList r).filter (fun v => !v.isNull)).filterMap
            Val.asNum |>.isEmpty
        · rw [if_pos hemp] at he
          exact Except.noConfusion he
        · rw [if_neg hemp] at he
          exact Except.noConfusion he
      · rintro ⟨_, hs2⟩
        exact absurd hs2 hs
  · rw [if_neg hn]
    exact ⟨fun he => Except.noConfusion he, fun hp => absurd hp.1 hn⟩

lemma fillAux_error_iff (rs : List Row) :
    ∀ i : ℕ, (fillAux i rs = .error () ↔
      ∃ r ∈ rs, (qList r).any Val.isNull = true ∧ (qList r).any Val.isStr = true) := by
  induction rs with
  | nil =>
    intro i
    exact ⟨fun he => Except.noConfusion he, fun ⟨r, hr, _⟩ => absurd hr (by simp)⟩
  | cons r rest ih =>
    intro i
    unfold fillAux
    have hbad_of_q : fillQRow r = .error () →
        ∃ r0 ∈ r :: rest, (qList r0).any Val.isNull = true ∧
          (qList r0).any Val.isStr = true :=
      fun hq => ⟨r, by simp, (fillQRow_error_iff r).mp hq⟩
    by_cases hn : rowHasNull r
    · rw [if_pos hn]
      cases hq : fillQRow r with
      | error e =>
        cases e
        exact ⟨fun _ => hbad_of_q hq, fun _ => rfl⟩
      | ok r2 =>
        cases hrec : fillAux (i + 1) rest with
        | error e =>
          cases e
          refine ⟨fun _ => ?_, fun _ => rfl⟩
          obtain ⟨r0, hr0, hc⟩ := (ih (i + 1)).mp hrec
          exact ⟨r0, by simp [hr0], hc⟩
        | ok p =>
          constructor
          · intro he
            exact Except.noConfusion he
          · rintro ⟨r0, hr0, hc⟩
            rcases List.mem_cons.mp hr0 with hr0 | hr0
            · rw [← hr0] at hq
              rw [(fillQRow_error_iff r0).mpr hc] at hq
              exact Except.noConfusion hq
            · rw [(ih (i + 1)).mpr ⟨r0, hr0, hc⟩] at hrec
              exact Except.noConfusion hrec
    · rw [if_neg hn]
      have hrq : (qList r).any Val.isNull = false :=
        qs_any_null_of_not_rowHasNull r (Bool.eq_false_iff.mpr hn)
      cases hrec : fillAux (i + 1) rest with
      | error e =>
        cases e
        refine ⟨fun _ => ?_, fun _ => rfl⟩
        obtain ⟨r0, hr0, hc⟩ := (ih (i + 1)).mp hrec
        exact ⟨r0, by simp [hr0], hc⟩
      | ok p =>
        constructor
        · intro he
          exact Except.noConfusion he
        · rintro ⟨r0, hr0, hc⟩
          rcases List.mem_cons.mp hr0 with hr0 | hr0
          · rw [hr0] at hc
            rw [hc.1] at hrq
            exact Bool.noConfusion hrq
          · rw [(ih (i + 1)).mpr ⟨r0, hr0, hc⟩] at hrec
            exact Except.noConfusion hrec

lemma Val.eq_null_of_isNull (v : Val) (h : v.isNull = true) : v = .null := by
  cases v with
  | num q => exact Bool.noConfusion h
  | str a => exact Bool.noConfusion h
  | null => rfl

lemma enumFrom_filter_fst_ge (p : ℕ × Row → Bool) (rs : List Row) :
    ∀ i : ℕ, ∀ x ∈ ((rs.enumFrom i).filter p).map Prod.fst, i ≤ x := by
  induction rs with
  | nil =>
    intro i x hx
    simp at hx
  | cons r rest ih =>
    intro i x hx
    rw [List.enumFrom_cons, List.filter_cons] at hx
    by_cases hp : p (i, r)
    · rw [if_pos hp, List.map_cons] at hx
      rcases List.mem_cons.mp hx with hx | hx
      · omega
      · have := ih (i + 1) x hx
        omega
    · rw [if_neg hp] at hx
      have := ih (i + 1) x hx
      omega

lemma enumFrom_filter_fst_pairwise (p : ℕ × Row → Bool) (rs : List Row) :
    ∀ i : ℕ, (((rs.enumFrom i).filter p).map Prod.fst).Pairwise (· < ·) := by
  induction rs with
  | nil =>
    intro i
    simp
  | cons r rest ih =>
    intro i
    rw [List.enumFrom_cons, List.filter_cons]
    by_cases hp : p (i, r)
    · rw [if_pos hp, List.map_cons]
      refine List.Pairwise.cons ?_ (ih (i + 1))
      intro x hx
      have := enumFrom_filter_fst_ge p rest (i + 1) x hx
      omega
    · rw [if_neg hp]
      exact ih (i + 1)

/-! ## C3: imputation index list — counterexample and amended statement -/

/-- C3 counterexample: a row whose only missing value is `age` (all five
questions answered) still gets its index 0 recorded, because the code
tests `row.isnull().any()` over every column, not just `q1..q5`. -/
theorem C3_counterexample :
    (fill_na_with_mean nullAgeTable).1 = .ok (nullAgeTable, [0]) ∧
    (∀ r ∈ nullAgeTable, (qList r).any Val.isNull = false) :=
  ⟨rfl, by decide⟩

/-- C3 (amended): for tables whose question cells are numeric-or-missing,
the returned index list holds exactly the original indices of the rows
with at least one missing value in any column (age, gender, email or a
question) — not only the questions — in strictly ascending order. -/
theorem C3_impute_indices_amended (t : Table) (h : ∀ r ∈ t, qsNumOrNull r = true) :
    ∃ t' : Table,
      (fill_na_with_mean t).1
        = .ok (t', ((t.enumFrom 0).filter (fun p => rowHasNull p.2)).map Prod.fst) ∧
      (fill_na_with_mean t).2 = t ∧
      (((t.enumFrom 0).filter (fun p => rowHasNull p.2)).map Prod.fst).Pairwise
        (· < ·) ∧
      (∀ n : ℕ, n ∈ ((t.enumFrom 0).filter (fun p => rowHasNull p.2)).map Prod.fst
        ↔ ∃ r : Row, (n, r) ∈ t.enumFrom 0 ∧ rowHasNull r = true) := by
  refine ⟨t.map fillSpecRow, ?_, rfl, enumFrom_filter_fst_pairwise _ t 0, ?_⟩
  · show (fillAux 0 t, t).1 = _
    rw [fillAux_eq t 0 h]
  · intro n
    simp only [List.mem_map, List.mem_filter]
    constructor
    · rintro ⟨⟨m, r⟩, ⟨hmem, hnull⟩, hfst⟩
      have hmn : m = n := hfst
      subst hmn
      exact ⟨r, hmem, hnull⟩
    · rintro ⟨r, hmem, hnull⟩
      exact ⟨(n, r), ⟨hmem, hnull⟩, rfl⟩

/-- Witness for C3: the amended theorem applied to the concrete table whose
single row misses only its age. -/
theorem C3_impute_indices_amended_witness :
    (∀ r ∈ nullAgeTable, qsNumOrNull r = true) ∧
    (∃ t' : Table,
      (fill_na_with_mean nullAgeTable).1
        = .ok (t', ((nullAgeTable.enumFrom 0).filter
            (fun p => rowHasNull p.2)).map Prod.fst) ∧
      (fill_na_with_mean nullAgeTable).2 = nullAgeTable ∧
      (((nullAgeTable.enumFrom 0).filter
          (fun p => rowHasNull p.2)).map Prod.fst).Pairwise (· < ·) ∧
      (∀ n : ℕ, n ∈ ((nullAgeTable.enumFrom 0).filter
            (fun p => rowHasNull p.2)).map Prod.fst
        ↔ ∃ r : Row, (n, r) ∈ nullAgeTable.enumFrom 0 ∧ rowHasNull r = true)) :=
  ⟨by decide, C3_impute_indices_amended nullAgeTable (by decide)⟩

/-! ## C7: imputation values -/

/-- C7: for tables whose question cells are numeric-or-missing (the data
model's typing), the imputation works on a copy (the stored table is
unchanged), replaces every missing question value with the row-wise mean
of the row's own non-missing question values, and a row with all five
questions missing is returned unchanged — its NaN mean is propagated
into no cell and no exception is raised (the result is `ok`). -/
theorem C7_impute_values (t : Table) (h : ∀ r ∈ t, qsNumOrNull r = true) :
    (fill_na_with_mean t).1
        = .ok (t.map fillSpecRow,
          ((t.enumFrom 0).filter (fun p => rowHasNull p.2)).map Prod.fst) ∧
    (fill_na_with_mean t).2 = t ∧
    (∀ r ∈ t, qList (fillSpecRow r)
      = (qList r).map (fun v => if v.isNull then valOfNum (rowQMean r) else v)) ∧
    (∀ r ∈ t, (qList r).all Val.isNull = true → fillSpecRow r = r) := by
  refine ⟨?_, rfl, ?_, ?_⟩
  · show (fillAux 0 t, t).1 = _
    rw [fillAux_eq t 0 h]
  · intro r _
    rfl
  · intro r _ hall
    have h1 := Val.eq_null_of_isNull r.q1 (List.all_eq_true.mp hall r.q1 (by simp [qList]))
    have h2 := Val.eq_null_of_isNull r.q2 (List.all_eq_true.mp hall r.q2 (by simp [qList]))
    have h3 := Val.eq_null_of_isNull r.q3 (List.all_eq_true.mp hall r.q3 (by simp [qList]))
    have h4 := Val.eq_null_of_isNull r.q4 (List.all_eq_true.mp hall r.q4 (by simp [qList]))
    have h5 := Val.eq_null_of_isNull r.q5 (List.all_eq_true.mp hall r.q5 (by simp [qList]))
    obtain ⟨a, g, e, v1, v2, v3, v4, v5, sc, ag⟩ := r
    simp only at h1 h2 h3 h4 h5
    subst h1 h2 h3 h4 h5
    rfl

/-- Witness for C7: on the example table the filled copy replaces the one
missing answer of row 0 by 25 (the mean of 10, 20, 30, 40), leaves the
complete row 1 alone, and keeps the all-missing row 2 as missing. -/
theorem C7_impute_values_witness :
    (∀ r ∈ imputeExampleTable, qsNumOrNull r = true) ∧
    ((fill_na_with_mean imputeExampleTable).1
        = .ok (imputeExampleTable.map fillSpecRow,
          ((imputeExampleTable.enumFrom 0).filter
            (fun p => rowHasNull p.2)).map Prod.fst) ∧
      (fill_na_with_mean imputeExampleTable).2 = imputeExampleTable ∧
      (∀ r ∈ imputeExampleTable, qList (fillSpecRow r)
        = (qList r).map (fun v => if v.isNull then valOfNum (rowQMean r) else v)) ∧
      (∀ r ∈ imputeExampleTable,
        (qList r).all Val.isNull = true → fillSpecRow r = r)) ∧
    imputeExampleTable.map (fun r => qList (fillSpecRow r))
      = [[.num 10, .num 20, .num 30, .num 40, .num 25],
         [.num 5, .num 5, .num 5, .num 5, .num 5],
         [.null, .null, .null, .null, .null]] :=
  ⟨by decide, C7_impute_values imputeExampleTable (by decide), by decide⟩

/-! ## C8: error handling -/

lemma score_subjects_ok (t : Table) (h : ∀ r ∈ t, qsInScale r = true) :
    (score_subjects 1 t).1
        = .ok (t.map (fun r => { coerceQs r with score := some (scoreSpec r) })) ∧
    (score_subjects 1 t).2
        = t.map (fun r => { coerceQs r with score := some (scoreSpec r) }) := by
  have hmm : (t.map coerceQs).mapM (fun r =>
      (calculate_score 1 ((qList r).map toNumeric)).map
        (fun s => { r with score := some s }))
      = .ok (t.map (fun r => { coerceQs r with score := some (scoreSpec r) })) := by
    rw [mapM_ok_of_forall _ (fun r1 => { r1 with score := some (scoreSpec r1) }) _
      (fun a _ => by rw [calculate_score_eq a]; rfl)]
    rw [List.map_map]
    refine congrArg Except.ok (List.map_congr_left ?_)
    intro r _
    show { coerceQs r with score := some (scoreSpec (coerceQs r)) }
        = { coerceQs r with score := some (scoreSpec r) }
    rw [scoreSpec_coerceQs]
  have hany : (t.map (fun r => { coerceQs r with score := some (scoreSpec r) })).any
      (fun r => match r.score with | some s => scoreOutOfRange s | none => false)
      = false := by
    rw [List.any_eq_false]
    intro r hr
    rw [List.mem_map] at hr
    obtain ⟨r0, hr0, hr0e⟩ := hr
    subst hr0e
    show ¬ (scoreOutOfRange (scoreSpec r0) = true)
    rw [scoreSpec_in_range r0 (h r0 hr0)]
    exact Bool.false_ne_true
  constructor
  · show (score_subjects 1 t).1 = _
    unfold score_subjects
    simp only [hmm]
    rw [if_neg (by rw [hany]; exact Bool.false_ne_true)]
  · show (score_subjects 1 t).2 = _
    unfold score_subjects
    simp only [hmm]
    rw [if_neg (by rw [hany]; exact Bool.false_ne_true)]

/-- C8 counterexample: a row with one missing question and one
non-numeric (string) question makes `fill_na_with_mean` raise — the
non-numeric value in `q2` is not silently treated as missing; it crashes
the row-mean computation.  So malformed row content can raise. -/
theorem C8_counterexample :
    (fill_na_with_mean mixedQTable).1 = .error () ∧
    (∃ r ∈ mixedQTable, (qList r).any (fun v => !v.numOrNull) = true) :=
  ⟨rfl, by decide⟩

/-! ## C2: email regex lemmas -/

lemma takeWhile_all_append (p : Char → Bool) (xs ys : List Char)
    (h : ∀ x ∈ xs, p x = true) :
    (xs ++ ys).takeWhile p = xs ++ ys.takeWhile p := by
  induction xs with
  | nil => rfl
  | cons a l ih =>
    rw [List.cons_append, List.takeWhile_cons, if_pos (h a (by simp)),
      ih (fun x hx => h x (by simp [hx])), List.cons_append]

lemma dropWhile_all_append (p : Char → Bool) (xs ys : List Char)
    (h : ∀ x ∈ xs, p x = true) :
    (xs ++ ys).dropWhile p = ys.dropWhile p := by
  induction xs with
  | nil => rfl
  | cons a l ih =>
    rw [List.cons_append, List.dropWhile_cons, if_pos (h a (by simp)),
      ih (fun x hx => h x (by simp [hx]))]

lemma dropWhile_head_false (p : Char → Bool) (cs m : List Char) (x : Char)
    (h : cs.dropWhile p = x :: m) : p x = false := by
  induction cs with
  | nil => exact List.noConfusion h
  | cons a l ih =>
    rw [List.dropWhile_cons] at h
    by_cases hpa : p a
    · rw [if_pos hpa] at h
      exact ih h
    · rw [if_neg hpa] at h
      cases h
      exact Bool.eq_false_iff.mpr hpa

lemma reMatch_iff (cs : List Char) :
    reMatch cs = true ↔
      ∃ (l m r : List Char) (c : Char),
        cs = l ++ '@' :: (m ++ '.' :: c :: r) ∧ l ≠ [] ∧ m ≠ [] ∧ c ≠ '@' ∧
        (∀ x ∈ l, x ≠ '@') ∧ (∀ x ∈ m, x ≠ '@') := by
  constructor
  · intro h
    unfold reMatch at h
    cases hd : cs.dropWhile (fun c => decide (c ≠ '@')) with
    | nil =>
      rw [hd] at h
      exact Bool.noConfusion h
    | cons x m =>
      have hx : x = '@' := by
        have := dropWhile_head_false _ cs m x hd
        simpa using this
      subst hx
      rw [hd] at h
      simp only [Bool.and_eq_true, beq_iff_eq] at h
      obtain ⟨-, hl, hany⟩ := h
      rw [List.any_eq_true] at hany
      obtain ⟨i, hirange, hcond⟩ := hany
      rw [Bool.and_eq_true, Bool.and_eq_true] at hcond
      obtain ⟨⟨hi1, hi2⟩, hdot⟩ := hcond
      rw [decide_eq_true_eq] at hi1 hi2
      rw [beq_iff_eq] at hdot
      have hlen : i + 1 < (m.takeWhile (fun c => decide (c ≠ '@'))).length := hi2
      have hilen : i < (m.takeWhile (fun c => decide (c ≠ '@'))).length := by omega
      set t := m.takeWhile (fun c => decide (c ≠ '@')) with ht
      have hdotel : t[i] = '.' := by
        obtain ⟨hh, hval⟩ := List.get?_eq_some.mp hdot
        simpa [List.get_eq_getElem] using hval
      have hsplit2 : t.drop i = '.' :: t.get ⟨i + 1, hlen⟩ :: t.drop (i + 2) := by
        rw [List.drop_eq_getElem_cons hilen, hdotel]
        congr 1
        rw [List.drop_eq_getElem_cons hlen]
        rfl
      have hm : m = t.take i ++ ('.' :: t.get ⟨i + 1, hlen⟩ ::
          (t.drop (i + 2) ++ m.dropWhile (fun c => decide (c ≠ '@')))) := by
        conv_lhs => rw [← List.takeWhile_append_dropWhile
          (p := fun c => decide (c ≠ '@')) (l := m)]
        rw [← ht]
        conv_lhs => rw [← List.take_append_drop i t]
        rw [hsplit2]
        simp only [List.append_assoc, List.cons_append]
      refine ⟨cs.takeWhile (fun c => decide (c ≠ '@')), t.take i,
        t.drop (i + 2) ++ m.dropWhile (fun c => decide (c ≠ '@')),
        t.get ⟨i + 1, hlen⟩, ?_, ?_, ?_, ?_, ?_, ?_⟩
      · calc cs = cs.takeWhile (fun c => decide (c ≠ '@'))
              ++ cs.dropWhile (fun c => decide (c ≠ '@')) :=
            (List.takeWhile_append_dropWhile _ cs).symm
          _ = cs.takeWhile (fun c => decide (c ≠ '@')) ++ ('@' :: m) := by rw [hd]
          _ = _ := congrArg
            (fun z => cs.takeWhile (fun c => decide (c ≠ '@')) ++ '@' :: z) hm
      · intro he
        rw [he] at hl
        exact Bool.noConfusion hl
      · intro he
        have hlen0 := congrArg List.length he
        rw [List.length_take] at hlen0
        simp only [List.length_nil] at hlen0
        omega
      · have hmem : t.get ⟨i + 1, hlen⟩ ∈ t := List.get_mem t (i + 1) hlen
        have := List.mem_takeWhile_imp
          (p := fun c => decide (c ≠ '@')) (l := m) hmem
        simpa using this
      · intro x hx
        have := List.mem_takeWhile_imp hx
        simpa using this
      · intro x hx
        have hxt : x ∈ t := List.mem_of_mem_take hx
        have := List.mem_takeWhile_imp
          (p := fun c => decide (c ≠ '@')) (l := m) hxt
        simpa using this
  · rintro ⟨l, mm, r, c, hcs, hlne, hmne, hcne, hlq, hmq⟩
    have hpl : ∀ x ∈ l, (fun c => decide (c ≠ '@')) x = true := by
      intro x hx
      simpa using hlq x hx
    have hpm : ∀ x ∈ mm, (fun c => decide (c ≠ '@')) x = true := by
      intro x hx
      simpa using hmq x hx
    have htake : cs.takeWhile (fun c => decide (c ≠ '@')) = l := by
      rw [hcs, takeWhile_all_append _ _ _ hpl, List.takeWhile_cons]
      rw [if_neg (by simp)]
      simp
    have hdrop : cs.dropWhile (fun c => decide (c ≠ '@'))
        = '@' :: (mm ++ '.' :: c :: r) := by
      rw [hcs, dropWhile_all_append _ _ _ hpl, List.dropWhile_cons]
      rw [if_neg (by simp)]
    have htw : (mm ++ '.' :: c :: r).takeWhile (fun c => decide (c ≠ '@'))
        = mm ++ '.' :: c :: r.takeWhile (fun c => decide (c ≠ '@')) := by
      rw [takeWhile_all_append _ _ _ hpm, List.takeWhile_cons,
        if_pos (by simp), List.takeWhile_cons, if_pos (by simpa using hcne)]
    unfold reMatch
    simp only [hdrop, htw, beq_self_eq_true, Bool.true_and, Bool.and_eq_true]
    constructor
    · rw [htake]
      cases l with
      | nil => exact absurd rfl hlne
      | cons a l0 => rfl
    · rw [List.any_eq_true]
      refine ⟨mm.length, ?_, ?_⟩
      · rw [List.mem_range]
        simp only [List.length_append, List.length_cons]
        omega
      · rw [Bool.and_eq_true, Bool.and_eq_true]
        refine ⟨⟨?_, ?_⟩, ?_⟩
        · rw [decide_eq_true_eq]
          have : 0 < mm.length := List.length_pos.mpr hmne
          omega
        · rw [decide_eq_true_eq]
          simp only [List.length_append, List.length_cons]
          omega
        · rw [List.get?_append_right (le_refl mm.length)]
          simp

/-- C2 counterexample: the string "a@b.@x" fits the spec's shape — a
non-'@' local part, '@', a non-'@' run, a '.', and at least one further
character ("@x") — yet the code's validator rejects it (the regex demands
a non-'@' character right after the '.'), so its row is dropped. -/
theorem C2_counterexample :
    specEmailShape "a@b.@x" ∧
    is_valid_email (.str "a@b.@x") = false ∧
    (remove_rows_without_mail
      [mkRow .null .null (.str "a@b.@x") .null .null .null .null .null]).1 = [] :=
  ⟨⟨['a'], ['b'], ['@', 'x'], by decide, by decide, by decide, by decide,
      by decide, by decide⟩,
    by decide, by decide⟩

/-- C2 (amended): a value is classified valid iff it is a string with a
prefix of the shape: at least one non-'@' character, '@', at least one
non-'@' character, a literal '.', then at least one non-'@' character —
the character right after the '.' must not be '@', and an arbitrary
remainder may follow (`re.match` only anchors the start).  Non-strings
are always invalid, and the returned table keeps exactly the rows with a
valid email. -/
theorem C2_email_filter_amended :
    (∀ s : String,
      is_valid_email (.str s) = true ↔
        ∃ (l m r : List Char) (c : Char),
          s.toList = l ++ '@' :: (m ++ '.' :: c :: r) ∧ l ≠ [] ∧ m ≠ [] ∧
          c ≠ '@' ∧ (∀ x ∈ l, x ≠ '@') ∧ (∀ x ∈ m, x ≠ '@')) ∧
    (∀ v : Val, v.isStr = false → is_valid_email v = false) ∧
    (∀ t : Table,
      (remove_rows_without_mail t).1 = t.filter (fun r => is_valid_email r.email)) := by
  refine ⟨?_, ?_, fun _ => rfl⟩
  · intro s
    exact reMatch_iff s.toList
  · intro v hv
    cases v with
    | num q => rfl
    | str a => exact Bool.noConfusion hv
    | null => rfl

/-- Witness for C2: "a@b.c" is valid by the amended characterization, and a
non-string value is invalid. -/
theorem C2_email_filter_amended_witness :
    is_valid_email (.str "a@b.c") = true ∧
    is_valid_email (.num 3) = false ∧
    (remove_rows_without_mail
        [mkRow .null .null (.str "a@b.c") .null .null .null .null .null]).1
      = [mkRow .null .null (.str "a@b.c") .null .null .null .null .null] :=
  ⟨(C2_email_filter_amended.1 "a@b.c").mpr
      ⟨['a'], ['b'], [], 'c', by decide, by decide, by decide, by decide,
        by decide, by decide⟩,
    C2_email_filter_amended.2.1 (.num 3) (by decide),
    by rw [C2_email_filter_amended.2.2]; decide⟩

/-- Witness for C4: the purity facts instantiated at a concrete table. -/
theorem C4_email_filter_pure_witness :
    (remove_rows_without_mail scoreExampleTable).2 = scoreExampleTable ∧
    (remove_rows_without_mail scoreExampleTable).1
      = scoreExampleTable.filter (fun r => is_valid_email r.email) ∧
    (remove_rows_without_mail ((remove_rows_without_mail scoreExampleTable).2)).1
      = (remove_rows_without_mail scoreExampleTable).1 ∧
    ((remove_rows_without_mail ((remove_rows_without_mail scoreExampleTable).2)).1).length
      = ((remove_rows_without_mail scoreExampleTable).1).length :=
  C4_email_filter_pure scoreExampleTable

/-- Witness for C5: the amended histogram facts instantiated at the
age-150 table. -/
theorem C5_age_distrib_amended_witness :
    ((show_age_distrib age150Table).1.1).sum
      = ((age150Table.filterMap (fun r => toNumeric r.age)).filter
          (fun a => decide (0 ≤ a) && decide (a ≤ 100))).length ∧
    ((show_age_distrib age150Table).1.1).length = 10 ∧
    ((show_age_distrib age150Table).1.2).length
      = ((show_age_distrib age150Table).1.1).length + 1 ∧
    (∀ a : ℚ, inBin 9 a = true ↔ (90 ≤ a ∧ a ≤ 100)) :=
  C5_age_distrib_amended age150Table

/-- Witness for C10: the write-back facts instantiated at the mixed table. -/
theorem C10_state_side_effects_witness :
    (show_age_distrib mixedQTable).2 = mixedQTable.map coerceAge ∧
    (∀ r ∈ (show_age_distrib mixedQTable).2, r.age = valOfNum (toNumeric r.age)) ∧
    (correlate_gender_age mixedQTable).2 = correlate_prep mixedQTable ∧
    (∀ r ∈ (correlate_gender_age mixedQTable).2,
      r.age = valOfNum (toNumeric r.age) ∧ r.age_group = some (ageGroupLabel r)) :=
  C10_state_side_effects mixedQTable

/-! ## C6: correlation lemmas -/

lemma insertKey_perm (k : String × String) (l : List (String × String)) :
    (insertKey k l).Perm (k :: l) := by
  induction l with
  | nil => exact List.Perm.refl _
  | cons x xs ih =>
    unfold insertKey
    by_cases h : keyLe k x
    · rw [if_pos h]
    · rw [if_neg h]
      exact (List.Perm.cons x ih).trans (List.Perm.swap k x xs)

lemma sortKeys_perm (l : List (String × String)) : (sortKeys l).Perm l := by
  induction l with
  | nil => exact List.Perm.refl _
  | cons x xs ih =>
    exact (insertKey_perm x (sortKeys xs)).trans (List.Perm.cons x ih)

lemma mem_sortKeys (l : List (String × String)) (k : String × String) :
    k ∈ sortKeys l ↔ k ∈ l :=
  (sortKeys_perm l).mem_iff

lemma nodup_sortKeys (l : List (String × String)) (h : l.Nodup) :
    (sortKeys l).Nodup :=
  (sortKeys_perm l).nodup_iff.mpr h

/-- The per-row preparation done by `correlate_gender_age`. -/
lemma correlate_prep_eq (t : Table) :
    correlate_prep t
      = t.map (fun r => { coerceAge r with age_group := some (ageGroupLabel (coerceAge r)) }) :=
  rfl

lemma qsel_prep (sel : Row → Val) (hsel : sel ∈ qSelectors) (r : Row) :
    sel ({ coerceAge r with age_group := some (ageGroupLabel (coerceAge r)) }) = sel r := by
  rcases (by simpa [qSelectors] using hsel :
      sel = Row.q1 ∨ sel = Row.q2 ∨ sel = Row.q3 ∨ sel = Row.q4 ∨ sel = Row.q5) with
    h | h | h | h | h <;> rw [h] <;> rfl

lemma ageGroupLabel_cases (r : Row) :
    (ageGroupLabel r = "above_40" ∨ ageGroupLabel r = "below_40") ∧
    (ageGroupLabel r = "above_40" ↔ ∃ a : ℚ, toNumeric r.age = some a ∧ 40 ≤ a) := by
  unfold ageGroupLabel
  cases ha : toNumeric r.age with
  | none =>
    refine ⟨Or.inr rfl, ?_, ?_⟩
    · intro he
      exact absurd he (by decide)
    · rintro ⟨a, haa, _⟩
      exact Option.noConfusion haa
  | some a =>
    show ((if 40 ≤ a then "above_40" else "below_40") = "above_40" ∨
        (if 40 ≤ a then "above_40" else "below_40") = "below_40") ∧
      ((if 40 ≤ a then "above_40" else "below_40") = "above_40" ↔
        ∃ a2 : ℚ, some a = some a2 ∧ 40 ≤ a2)
    by_cases h40 : 40 ≤ a
    · rw [if_pos h40]
      exact ⟨Or.inl rfl, fun _ => ⟨a, rfl, h40⟩, fun _ => rfl⟩
    · rw [if_neg h40]
      refine ⟨Or.inr rfl, ?_, ?_⟩
      · intro he
        exact absurd he (by decide)
      · rintro ⟨a2, haa, h40b⟩
        cases haa
        exact absurd h40b h40

lemma qsel_mem_qList (sel : Row → Val) (hsel : sel ∈ qSelectors) (r : Row) :
    sel r ∈ qList r := by
  rcases (by simpa [qSelectors] using hsel :
      sel = Row.q1 ∨ sel = Row.q2 ∨ sel = Row.q3 ∨ sel = Row.q4 ∨ sel = Row.q5) with
    h | h | h | h | h <;> rw [h] <;> simp [qList]

lemma correlate_cond_true (t : Table)
    (hg : ∀ r ∈ t, r.gender.isStr = true)
    (hqn : ∀ r ∈ t, qsNumOrNull r = true)
    (hqx : ∀ sel ∈ qSelectors, ∃ r ∈ t, (sel r).asNum ≠ none) :
    (qSelectors.all (fun sel => colNumeric (correlate_prep t) sel) &&
      (correlate_prep t).all (fun r => r.gender.isStr || r.gender.isNull)) = true := by
  rw [Bool.and_eq_true]
  constructor
  · rw [List.all_eq_true]
    intro sel hsel
    unfold colNumeric
    rw [Bool.and_eq_true]
    constructor
    · rw [List.all_eq_true]
      intro r1 hr1
      rw [correlate_prep_eq, List.mem_map] at hr1
      obtain ⟨r, hr, hre⟩ := hr1
      subst hre
      rw [qsel_prep sel hsel r]
      exact List.all_eq_true.mp (hqn r hr) (sel r) (qsel_mem_qList sel hsel r)
    · rw [List.any_eq_true]
      obtain ⟨r, hr, hne⟩ := hqx sel hsel
      refine ⟨{ coerceAge r with age_group := some (ageGroupLabel (coerceAge r)) },
        ?_, ?_⟩
      · rw [correlate_prep_eq, List.mem_map]
        exact ⟨r, hr, rfl⟩
      · rw [qsel_prep sel hsel r]
        exact decide_eq_true hne
  · rw [List.all_eq_true]
    intro r1 hr1
    rw [correlate_prep_eq, List.mem_map] at hr1
    obtain ⟨r, hr, hre⟩ := hr1
    subst hre
    have : r.gender.isStr = true := hg r hr
    show (r.gender.isStr || r.gender.isNull) = true
    rw [this, Bool.true_or]

lemma correlate_ok (t : Table)
    (hg : ∀ r ∈ t, r.gender.isStr = true)
    (hqn : ∀ r ∈ t, qsNumOrNull r = true)
    (hqx : ∀ sel ∈ qSelectors, ∃ r ∈ t, (sel r).asNum ≠ none) :
    (correlate_gender_age t).1 = .ok
      ((sortKeys ((correlate_prep t).filterMap rowKey).dedup).map
        (fun k => (k, qSelectors.map (groupQMean (correlate_prep t) k)))) := by
  show (if ((qSelectors.all fun sel => colNumeric (correlate_prep t) sel) &&
        (correlate_prep t).all fun r => r.gender.isStr || r.gender.isNull) = true
      then Except.ok ((sortKeys ((correlate_prep t).filterMap rowKey).dedup).map
        (fun k => (k, qSelectors.map (groupQMean (correlate_prep t) k))))
      else Except.error ()) = _
  rw [if_pos (correlate_cond_true t hg hqn hqx)]

lemma Val.isStr_iff (v : Val) : v.isStr = true ↔ ∃ s : String, v = .str s := by
  cases v with
  | num q => exact ⟨fun h => Bool.noConfusion h, fun ⟨s, hs⟩ => Val.noConfusion hs⟩
  | str a => exact ⟨fun _ => ⟨a, rfl⟩, fun _ => rfl⟩
  | null => exact ⟨fun h => Bool.noConfusion h, fun ⟨s, hs⟩ => Val.noConfusion hs⟩

lemma rowKey_prep (r : Row) (s : String) (hs : r.gender = .str s) :
    rowKey ({ coerceAge r with age_group := some (ageGroupLabel (coerceAge r)) })
      = some (s, ageGroupLabel (coerceAge r)) := by
  unfold rowKey
  show (match ({ coerceAge r with
      age_group := some (ageGroupLabel (coerceAge r)) } : Row).gender,
      (some (ageGroupLabel (coerceAge r)) : Option String) with
    | .str g, some ag => some (g, ag)
    | _, _ => none) = _
  rw [show ({ coerceAge r with
      age_group := some (ageGroupLabel (coerceAge r)) } : Row).gender = r.gender
    from rfl, hs]

lemma groupQMean_eq (t : Table) (hg : ∀ r ∈ t, r.gender.isStr = true)
    (k : String × String) (sel : Row → Val) (hsel : sel ∈ qSelectors) :
    groupQMean (correlate_prep t) k sel
      = (fun vals : List ℚ => if vals.isEmpty then none
          else some (vals.sum / ((vals.length : ℕ) : ℚ)))
        (t.filterMap (fun r =>
          if r.gender = .str k.1 ∧ ageGroupLabel (coerceAge r) = k.2
          then (sel r).asNum else none)) := by
  have hv : (correlate_prep t).filterMap
        (fun r => if rowKey r = some k then (sel r).asNum else none)
      = t.filterMap (fun r =>
          if r.gender = .str k.1 ∧ ageGroupLabel (coerceAge r) = k.2
          then (sel r).asNum else none) := by
    rw [correlate_prep_eq, List.filterMap_map]
    apply List.filterMap_congr
    intro r hr
    obtain ⟨s, hs⟩ := (Val.isStr_iff r.gender).mp (hg r hr)
    show (if rowKey ({ coerceAge r with
          age_group := some (ageGroupLabel (coerceAge r)) }) = some k
        then (sel ({ coerceAge r with
          age_group := some (ageGroupLabel (coerceAge r)) })).asNum else none) = _
    rw [rowKey_prep r s hs, qsel_prep sel hsel r]
    by_cases hc : s = k.1 ∧ ageGroupLabel (coerceAge r) = k.2
    · rw [if_pos (by rw [hc.1, hc.2]),
        if_pos ⟨by rw [hs, hc.1], hc.2⟩]
    · rw [if_neg (fun he => hc (by
        obtain ⟨h1, h2⟩ := Prod.mk.injEq .. ▸ Option.some.injEq .. ▸ he
        exact ⟨h1, h2⟩)),
        if_neg (fun he => hc ⟨by
          obtain ⟨h1, _⟩ := he
          rw [hs] at h1
          exact Val.str.injEq .. ▸ h1, he.2⟩)]
  show (fun vals : List ℚ => if vals.isEmpty then none
      else some (vals.sum / ((vals.length : ℕ) : ℚ)))
    ((correlate_prep t).filterMap
      (fun r => if rowKey r = some k then (sel r).asNum else none)) = _
  rw [hv]

/-! ## C6: the correlation result -/

/-- C6: for tables whose genders are strings and whose question columns
are numeric (the data model; pandas drops non-numeric columns and the
code's later selection would raise), the correlation labels each row's
`age_group` as `above_40` exactly when the coerced age is at least 40
(missing ages fall into `below_40`), and returns exactly one row per
observed (gender, age_group) pair, carrying the arithmetic mean of each
question over the non-missing values of that group. -/
theorem C6_correlation (t : Table)
    (hg : ∀ r ∈ t, r.gender.isStr = true)
    (hqn : ∀ r ∈ t, qsNumOrNull r = true)
    (hqx : ∀ sel ∈ qSelectors, ∃ r ∈ t, (sel r).asNum ≠ none) :
    ∃ res : List ((String × String) × List (Option ℚ)),
      (correlate_gender_age t).1 = .ok res ∧
      (∀ r : Row, (ageGroupLabel r = "above_40" ∨ ageGroupLabel r = "below_40") ∧
        (ageGroupLabel r = "above_40" ↔ ∃ a : ℚ, toNumeric r.age = some a ∧ 40 ≤ a)) ∧
      (∀ r ∈ (correlate_gender_age t).2, r.age_group = some (ageGroupLabel r)) ∧
      (∀ g ag, (g, ag) ∈ res.map Prod.fst ↔
        ∃ r ∈ t, r.gender = .str g ∧ ag = ageGroupLabel (coerceAge r)) ∧
      (res.map Prod.fst).Nodup ∧
      (∀ pr ∈ res, pr.2 = qSelectors.map (fun sel =>
        (fun vals : List ℚ => if vals.isEmpty then none
          else some (vals.sum / ((vals.length : ℕ) : ℚ)))
        (t.filterMap (fun r =>
          if r.gender = .str pr.1.1 ∧ ageGroupLabel (coerceAge r) = pr.1.2
          then (sel r).asNum else none)))) := by
  refine ⟨(sortKeys ((correlate_prep t).filterMap rowKey).dedup).map
      (fun k => (k, qSelectors.map (groupQMean (correlate_prep t) k))),
    correlate_ok t hg hqn hqx, ageGroupLabel_cases, ?_, ?_, ?_, ?_⟩
  · intro r hr
    rw [show (correlate_gender_age t).2 = correlate_prep t from rfl,
      correlate_prep_eq, List.mem_map] at hr
    obtain ⟨r0, _, hr0⟩ := hr
    subst hr0
    rfl
  · intro g ag
    rw [List.map_map]
    rw [show (Prod.fst ∘ fun k => (k, qSelectors.map (groupQMean (correlate_prep t) k)))
        = id from rfl, List.map_id]
    rw [mem_sortKeys, List.mem_dedup, List.mem_filterMap]
    constructor
    · rintro ⟨r1, hr1, hkey⟩
      rw [correlate_prep_eq, List.mem_map] at hr1
      obtain ⟨r, hr, hre⟩ := hr1
      subst hre
      obtain ⟨s, hs⟩ := (Val.isStr_iff r.gender).mp (hg r hr)
      rw [rowKey_prep r s hs] at hkey
      obtain ⟨h1, h2⟩ := Prod.mk.injEq .. ▸ Option.some.injEq .. ▸ hkey
      exact ⟨r, hr, by rw [hs, h1], h2.symm⟩
    · rintro ⟨r, hr, hgen, hag⟩
      refine ⟨{ coerceAge r with age_group := some (ageGroupLabel (coerceAge r)) },
        ?_, ?_⟩
      · rw [correlate_prep_eq, List.mem_map]
        exact ⟨r, hr, rfl⟩
      · rw [rowKey_prep r g hgen, hag]
  · rw [List.map_map]
    rw [show (Prod.fst ∘ fun k => (k, qSelectors.map (groupQMean (correlate_prep t) k)))
        = id from rfl, List.map_id]
    exact nodup_sortKeys _ (List.nodup_dedup _)
  · intro pr hpr
    rw [List.mem_map] at hpr
    obtain ⟨k, _, hk⟩ := hpr
    subst hk
    show qSelectors.map (groupQMean (correlate_prep t) k) = _
    apply List.map_congr_left
    intro sel hsel
    exact groupQMean_eq t hg k sel hsel

/-- Witness for C6: the spec's two-row example produces exactly the two
group rows ("F","above_40") with means 10 and ("F","below_40") with
means 20. -/
theorem C6_correlation_witness :
    ((∀ r ∈ correlationExampleTable, r.gender.isStr = true) ∧
      (∀ r ∈ correlationExampleTable, qsNumOrNull r = true) ∧
      (∀ sel ∈ qSelectors, ∃ r ∈ correlationExampleTable, (sel r).asNum ≠ none)) ∧
    (∃ res : List ((String × String) × List (Option ℚ)),
      (correlate_gender_age correlationExampleTable).1 = .ok res ∧
      (∀ r : Row, (ageGroupLabel r = "above_40" ∨ ageGroupLabel r = "below_40") ∧
        (ageGroupLabel r = "above_40" ↔ ∃ a : ℚ, toNumeric r.age = some a ∧ 40 ≤ a)) ∧
      (∀ r ∈ (correlate_gender_age correlationExampleTable).2,
        r.age_group = some (ageGroupLabel r)) ∧
      (∀ g ag, (g, ag) ∈ res.map Prod.fst ↔
        ∃ r ∈ correlationExampleTable,
          r.gender = .str g ∧ ag = ageGroupLabel (coerceAge r)) ∧
      (res.map Prod.fst).Nodup ∧
      (∀ pr ∈ res, pr.2 = qSelectors.map (fun sel =>
        (fun vals : List ℚ => if vals.isEmpty then none
          else some (vals.sum / ((vals.length : ℕ) : ℚ)))
        (correlationExampleTable.filterMap (fun r =>
          if r.gender = .str pr.1.1 ∧ ageGroupLabel (coerceAge r) = pr.1.2
          then (sel r).asNum else none))))) ∧
    (correlate_gender_age correlationExampleTable).1
      = .ok [(("F", "above_40"), [some 10, some 10, some 10, some 10, some 10]),
             (("F", "below_40"), [some 20, some 20, some 20, some 20, some 20])] :=
  ⟨⟨by decide, by decide, by decide⟩,
    C6_correlation correlationExampleTable (by decide) (by decide) (by decide),
    by with_unfolding_all rfl⟩

/-! ## C9: the round-trip invariant -/

lemma wf_parts (r : Row) (h : wellFormedRow r = true) :
    r.gender.isStr = true ∧
    ∀ v ∈ qList r, ∃ x : ℚ, v = .num x ∧ 0 ≤ x ∧ x ≤ 100 := by
  unfold wellFormedRow at h
  rw [Bool.and_eq_true] at h
  refine ⟨h.1, ?_⟩
  intro v hv
  have hcomp := List.all_eq_true.mp h.2 v hv
  cases v with
  | num x =>
    rw [Bool.and_eq_true, decide_eq_true_eq, decide_eq_true_eq] at hcomp
    exact ⟨x, rfl, hcomp⟩
  | str a => exact Bool.noConfusion hcomp
  | null => exact Bool.noConfusion hcomp

lemma wf_qsNumOrNull (r : Row) (h : wellFormedRow r = true) :
    qsNumOrNull r = true := by
  unfold qsNumOrNull
  rw [List.all_eq_true]
  intro v hv
  obtain ⟨x, hx, _⟩ := (wf_parts r h).2 v hv
  rw [hx]
  rfl

lemma wf_qsInScale (r : Row) (h : wellFormedRow r = true) :
    qsInScale r = true := by
  unfold qsInScale
  rw [List.all_eq_true]
  intro v hv
  obtain ⟨x, hx, hx0, hx100⟩ := (wf_parts r h).2 v hv
  rw [hx]
  show (decide (0 ≤ x) && decide (x ≤ 100)) = true
  rw [decide_eq_true hx0, decide_eq_true hx100]
  rfl

lemma qList_coerceAge (r : Row) : qList (coerceAge r) = qList r := rfl

lemma qsel_coerceAge (sel : Row → Val) (hsel : sel ∈ qSelectors) (r : Row) :
    sel (coerceAge r) = sel r := by
  rcases (by simpa [qSelectors] using hsel :
      sel = Row.q1 ∨ sel = Row.q2 ∨ sel = Row.q3 ∨ sel = Row.q4 ∨ sel = Row.q5) with
    h | h | h | h | h <;> rw [h] <;> rfl

lemma qsel_scored (sel : Row → Val) (hsel : sel ∈ qSelectors) (r1 : Row) :
    sel ({ coerceQs r1 with score := some (scoreSpec r1) })
      = valOfNum (toNumeric (sel r1)) := by
  rcases (by simpa [qSelectors] using hsel :
      sel = Row.q1 ∨ sel = Row.q2 ∨ sel = Row.q3 ∨ sel = Row.q4 ∨ sel = Row.q5) with
    h | h | h | h | h <;> rw [h] <;> rfl

/-- C9: loading N well-formed rows (string gender, five answers on the
0–100 scale) and running the five operations in sequence keeps the
stored table's row count at N at every stage; only the email filter's
returned copy may be shorter, and every operation succeeds. -/
theorem C9_round_trip (t : Table) (hne : t ≠ [])
    (h : ∀ r ∈ t, wellFormedRow r = true) :
    ((show_age_distrib t).2).length = t.length ∧
    (remove_rows_without_mail ((show_age_distrib t).2)).2 = (show_age_distrib t).2 ∧
    (fill_na_with_mean ((show_age_distrib t).2)).2 = (show_age_distrib t).2 ∧
    (∃ p, (fill_na_with_mean ((show_age_distrib t).2)).1 = .ok p) ∧
    (∃ t4 : Table,
      (score_subjects 1 ((show_age_distrib t).2)).1 = .ok t4 ∧
      (score_subjects 1 ((show_age_distrib t).2)).2 = t4 ∧
      t4.length = t.length ∧
      (∃ res, (correlate_gender_age t4).1 = .ok res) ∧
      ((correlate_gender_age t4).2).length = t.length) := by
  have hs1 : (show_age_distrib t).2 = t.map coerceAge := rfl
  have hmem1 : ∀ r1 ∈ (show_age_distrib t).2, ∃ r ∈ t, r1 = coerceAge r := by
    intro r1 hr1
    rw [hs1, List.mem_map] at hr1
    obtain ⟨r, hr, hre⟩ := hr1
    exact ⟨r, hr, hre.symm⟩
  have hqn1 : ∀ r1 ∈ (show_age_distrib t).2, qsNumOrNull r1 = true := by
    intro r1 hr1
    obtain ⟨r, hr, hre⟩ := hmem1 r1 hr1
    subst hre
    show ((qList (coerceAge r)).all Val.numOrNull) = true
    rw [qList_coerceAge]
    exact wf_qsNumOrNull r (h r hr)
  have hsc1 : ∀ r1 ∈ (show_age_distrib t).2, qsInScale r1 = true := by
    intro r1 hr1
    obtain ⟨r, hr, hre⟩ := hmem1 r1 hr1
    subst hre
    show ((qList (coerceAge r)).all _) = true
    rw [qList_coerceAge]
    exact wf_qsInScale r (h r hr)
  have hscore := score_subjects_ok ((show_age_distrib t).2) hsc1
  refine ⟨by rw [hs1, List.length_map], rfl, rfl,
    ⟨(((show_age_distrib t).2).map fillSpecRow,
      (((show_age_distrib t).2).enumFrom 0).filter (fun p => rowHasNull p.2)
        |>.map Prod.fst), ?_⟩,
    ((show_age_distrib t).2).map
      (fun r => { coerceQs r with score := some (scoreSpec r) }),
    hscore.1, hscore.2, by rw [List.length_map, hs1, List.length_map], ?_, ?_⟩
  · show (fillAux 0 ((show_age_distrib t).2), (show_age_distrib t).2).1 = _
    rw [fillAux_eq ((show_age_distrib t).2) 0 hqn1]
  · -- the correlation succeeds on the scored table
    refine ⟨_, correlate_ok _ ?_ ?_ ?_⟩
    · intro r4 hr4
      rw [List.mem_map] at hr4
      obtain ⟨r1, hr1, hre⟩ := hr4
      subst hre
      obtain ⟨r, hr, hre⟩ := hmem1 r1 hr1
      subst hre
      show r.gender.isStr = true
      exact (wf_parts r (h r hr)).1
    · intro r4 hr4
      rw [List.mem_map] at hr4
      obtain ⟨r1, _, hre⟩ := hr4
      subst hre
      show ((qList { coerceQs r1 with score := some (scoreSpec r1) }).all
        Val.numOrNull) = true
      rw [List.all_eq_true]
      intro v hv
      rcases (by simpa [qList, coerceQs] using hv :
          v = valOfNum (toNumeric r1.q1) ∨ v = valOfNum (toNumeric r1.q2) ∨
          v = valOfNum (toNumeric r1.q3) ∨ v = valOfNum (toNumeric r1.q4) ∨
          v = valOfNum (toNumeric r1.q5)) with
        hc | hc | hc | hc | hc <;> rw [hc] <;> cases toNumeric _ <;> rfl
    · intro sel hsel
      obtain ⟨r0, hr0⟩ := List.exists_mem_of_ne_nil t hne
      obtain ⟨x, hx, _⟩ := (wf_parts r0 (h r0 hr0)).2 (sel r0) (qsel_mem_qList sel hsel r0)
      refine ⟨{ coerceQs (coerceAge r0) with score := some (scoreSpec (coerceAge r0)) },
        ?_, ?_⟩
      · rw [List.mem_map]
        exact ⟨coerceAge r0, by rw [hs1, List.mem_map]; exact ⟨r0, hr0, rfl⟩, rfl⟩
      · rw [qsel_scored sel hsel (coerceAge r0), qsel_coerceAge sel hsel r0, hx]
        intro hcontra
        exact Option.noConfusion hcontra
  · show ((correlate_prep _).length) = t.length
    rw [correlate_prep_eq, List.length_map, List.length_map, hs1, List.length_map]

/-- Witness for C9: the two-row example table is non-empty and
well-formed, and the round-trip keeps both stored rows at every stage. -/
theorem C9_round_trip_witness :
    (correlationExampleTable ≠ [] ∧
      (∀ r ∈ correlationExampleTable, wellFormedRow r = true)) ∧
    (((show_age_distrib correlationExampleTable).2).length
        = correlationExampleTable.length ∧
      (remove_rows_without_mail ((show_age_distrib correlationExampleTable).2)).2
        = (show_age_distrib correlationExampleTable).2 ∧
      (fill_na_with_mean ((show_age_distrib correlationExampleTable).2)).2
        = (show_age_distrib correlationExampleTable).2 ∧
      (∃ p, (fill_na_with_mean ((show_age_distrib correlationExampleTable).2)).1
        = .ok p) ∧
      (∃ t4 : Table,
        (score_subjects 1 ((show_age_distrib correlationExampleTable).2)).1
          = .ok t4 ∧
        (score_subjects 1 ((show_age_distrib correlationExampleTable).2)).2 = t4 ∧
        t4.length = correlationExampleTable.length ∧
        (∃ res, (correlate_gender_age t4).1 = .ok res) ∧
        ((correlate_gender_age t4).2).length = correlationExampleTable.length)) :=
  ⟨⟨by decide, by decide⟩,
    C9_round_trip correlationExampleTable (by decide) (by decide)⟩

/-! ## C8 (amended): the raise paths of the five operations -/

/-- The correlation raises whenever some question cell holds a string:
the object-dtype column is dropped by `mean(numeric_only=True)` and the
subsequent `q1..q5` selection fails, which the embedding models as the
error branch of `correlate_gender_age`. -/
lemma correlate_error_of_str_q (t0 : Table)
    (h : ∃ r ∈ t0, (qList r).any Val.isStr = true) :
    (correlate_gender_age t0).1 = .error () := by
  obtain ⟨r, hr, hs⟩ := h
  rw [List.any_eq_true] at hs
  obtain ⟨v, hv, hvs⟩ := hs
  have hsel : ∃ sel ∈ qSelectors, sel r = v := by
    rcases (by simpa [qList] using hv :
        v = r.q1 ∨ v = r.q2 ∨ v = r.q3 ∨ v = r.q4 ∨ v = r.q5) with
      hc | hc | hc | hc | hc
    · exact ⟨Row.q1, by simp [qSelectors], hc.symm⟩
    · exact ⟨Row.q2, by simp [qSelectors], hc.symm⟩
    · exact ⟨Row.q3, by simp [qSelectors], hc.symm⟩
    · exact ⟨Row.q4, by simp [qSelectors], hc.symm⟩
    · exact ⟨Row.q5, by simp [qSelectors], hc.symm⟩
  obtain ⟨sel, hselq, hselv⟩ := hsel
  obtain ⟨s2, hs2⟩ := (Val.isStr_iff v).mp hvs
  have hcond : ¬ (((qSelectors.all fun sel => colNumeric (correlate_prep t0) sel) &&
      (correlate_prep t0).all (fun r => r.gender.isStr || r.gender.isNull)) = true) := by
    intro hc
    rw [Bool.and_eq_true] at hc
    have hall := List.all_eq_true.mp hc.1 sel hselq
    unfold colNumeric at hall
    rw [Bool.and_eq_true] at hall
    have hmem : ({ coerceAge r with
        age_group := some (ageGroupLabel (coerceAge r)) } : Row)
        ∈ correlate_prep t0 := by
      rw [correlate_prep_eq, List.mem_map]
      exact ⟨r, hr, rfl⟩
    have hno := List.all_eq_true.mp hall.1 _ hmem
    rw [qsel_prep sel hselq r, hselv, hs2] at hno
    exact Bool.noConfusion hno
  show (if ((qSelectors.all fun sel => colNumeric (correlate_prep t0) sel) &&
        (correlate_prep t0).all fun r => r.gender.isStr || r.gender.isNull) = true
      then Except.ok ((sortKeys ((correlate_prep t0).filterMap rowKey).dedup).map
        (fun k => (k, qSelectors.map (groupQMean (correlate_prep t0) k))))
      else Except.error ()) = _
  rw [if_neg hcond]

/-- C8 (amended): non-numeric ages are silently coerced to missing by the
operations that touch age (age distribution and correlation), and for
tables whose rows respect the data model (questions numeric-or-missing
within the 0–100 scale, string genders, at least one numeric value per
question column) imputation, scoring and correlation all succeed.  But
malformed question values can raise: imputation raises exactly when some
row combines a missing question value with a non-numeric (string)
question value (it computes row means without coercing); the correlation
raises whenever a question column contains a string (the object-dtype
column is dropped and the `q1..q5` selection fails); and scoring's
unsigned-8-bit cast raises for scores outside 0..255. -/
theorem C8_error_handling_amended (t : Table)
    (h1 : ∀ r ∈ t, qsNumOrNull r = true) (h2 : ∀ r ∈ t, qsInScale r = true)
    (h3 : ∀ r ∈ t, r.gender.isStr = true)
    (h4 : ∀ sel ∈ qSelectors, ∃ r ∈ t, (sel r).asNum ≠ none) :
    (∃ p, (fill_na_with_mean t).1 = .ok p) ∧
    (∃ t2, (score_subjects 1 t).1 = .ok t2) ∧
    (∃ res, (correlate_gender_age t).1 = .ok res) ∧
    (∀ r ∈ (show_age_distrib t).2, r.age.numOrNull = true) ∧
    (∀ r ∈ (correlate_gender_age t).2, r.age.numOrNull = true) ∧
    (∀ t0 : Table, (fill_na_with_mean t0).1 = .error () ↔
      ∃ r ∈ t0, (qList r).any Val.isNull = true ∧ (qList r).any Val.isStr = true) ∧
    (∀ t0 : Table, (∃ r ∈ t0, (qList r).any Val.isStr = true) →
      (correlate_gender_age t0).1 = .error ()) := by
  refine ⟨?_, ?_, ?_, ?_, ?_, ?_, correlate_error_of_str_q⟩
  · refine ⟨(t.map fillSpecRow,
      ((t.enumFrom 0).filter (fun p => rowHasNull p.2)).map Prod.fst), ?_⟩
    show (fillAux 0 t, t).1 = _
    rw [fillAux_eq t 0 h1]
  · exact ⟨_, (score_subjects_ok t h2).1⟩
  · exact ⟨_, correlate_ok t h3 h1 h4⟩
  · intro r hr
    rw [show (show_age_distrib t).2 = t.map coerceAge from rfl, List.mem_map] at hr
    obtain ⟨r0, _, hr0⟩ := hr
    subst hr0
    show (valOfNum (toNumeric r0.age)).numOrNull = true
    cases toNumeric r0.age <;> rfl
  · intro r hr
    rw [show (correlate_gender_age t).2 = correlate_prep t from rfl,
      correlate_prep_eq, List.mem_map] at hr
    obtain ⟨r0, _, hr0⟩ := hr
    subst hr0
    show (valOfNum (toNumeric r0.age)).numOrNull = true
    cases toNumeric r0.age <;> rfl
  · intro t0
    exact fillAux_error_iff t0 0

/-- Witness for C8: the three-row scoring example satisfies all the
data-model hypotheses, and the amended theorem applies — in particular
the correlation succeeds there, while the mixed missing/string row of
the counterexample makes both imputation and correlation raise. -/
theorem C8_error_handling_amended_witness :
    ((∀ r ∈ scoreExampleTable, qsNumOrNull r = true) ∧
      (∀ r ∈ scoreExampleTable, qsInScale r = true) ∧
      (∀ r ∈ scoreExampleTable, r.gender.isStr = true) ∧
      (∀ sel ∈ qSelectors, ∃ r ∈ scoreExampleTable, (sel r).asNum ≠ none)) ∧
    ((∃ p, (fill_na_with_mean scoreExampleTable).1 = .ok p) ∧
      (∃ t2, (score_subjects 1 scoreExampleTable).1 = .ok t2) ∧
      (∃ res, (correlate_gender_age scoreExampleTable).1 = .ok res) ∧
      (∀ r ∈ (show_age_distrib scoreExampleTable).2, r.age.numOrNull = true) ∧
      (∀ r ∈ (correlate_gender_age scoreExampleTable).2, r.age.numOrNull = true) ∧
      (∀ t0 : Table, (fill_na_with_mean t0).1 = .error () ↔
        ∃ r ∈ t0, (qList r).any Val.isNull = true ∧ (qList r).any Val.isStr = true) ∧
      (∀ t0 : Table, (∃ r ∈ t0, (qList r).any Val.isStr = true) →
        (correlate_gender_age t0).1 = .error ())) ∧
    (correlate_gender_age mixedQTable).1 = .error () :=
  ⟨⟨by decide, by decide, by decide, by decide⟩,
    C8_error_handling_amended scoreExampleTable
      (by decide) (by decide) (by decide) (by decide),
    by with_unfolding_all rfl⟩
